import Mathlib

/-!
# hw3-arduino: serial line, parser, int8 quantizer, model runner, report

A shallow embedding of `src/main.cpp`.

Conventions of the embedding

* A `char` is its byte value, a `Nat` (13 is the carriage return, 44 the comma,
  0 the NUL).  A C string is the run of cells before the first NUL.
* Every global array is a list of its declared length.  A store at an index
  past the end of an array cannot be given a meaning in C; the model records
  the index (ghost field `stores`) and leaves the modelled variables as they
  are.  A read of a C string that meets the end of its array stops there.
* `int` values are mathematical integers.  `atoi` is exact; C leaves it
  undefined when the value does not fit an `int`.  The additions of
  `sum_array` are those of a 32-bit two's complement `int` (`wrap_int`): C
  leaves an overflowing addition undefined and the builds wrap.  The
  statements about values and sums assume that they fit an `int`.
* `float` is IEEE-754 binary32 with round-to-nearest-even, modelled exactly on
  the rationals (`f32`); the exponent is not bounded above, which is exact for
  every magnitude below `2 ^ 128`.
* The TensorFlow Lite Micro interpreter and the clock are parameters (`Env`).
-/

namespace Hw3

/-! ## Constants (main.cpp 11-13) -/

/-- Capacity of `in_str_buff`, `#define INPUT_BUFFER_SIZE 64`. -/
abbrev INPUT_BUFFER_SIZE : Nat := 64

/-- Capacity of `out_str_buff`, `#define OUTPUT_BUFFER_SIZE 64`. -/
abbrev OUTPUT_BUFFER_SIZE : Nat := 64

/-- Capacity of `input_array`, `#define INT_ARRAY_SIZE 8`. -/
abbrev INT_ARRAY_SIZE : Nat := 8

/-! ## The C library functions the program calls -/

/-- The C `isspace` in the "C" locale: space, and the controls 9 to 13. -/
def isspace (c : Nat) : Bool := c == 32 || (9 ≤ c && c ≤ 13)

/-- The C `isdigit`. -/
def isdigit (c : Nat) : Bool := 48 ≤ c && c ≤ 57

/-- The digit loop of `atoi`: accumulate decimal digits until the first
character that is not one. -/
def atoi_digits : List Nat → Int → Int
  | [], acc => acc
  | c :: cs, acc => if isdigit c then atoi_digits cs (acc * 10 + ((c - 48 : Nat) : Int)) else acc

/-- The C `atoi` on the characters of a string: skip white space, take an
optional sign, convert the digits that follow; 0 when there is none. -/
def atoi (s : List Nat) : Int :=
  match s.dropWhile isspace with
  | [] => 0
  | c :: r =>
    if c = 45 then - atoi_digits r 0
    else if c = 43 then atoi_digits r 0
    else atoi_digits (c :: r) 0

/-- Digits of `n`, most significant first, put in front of `acc`
(the conversion `%d` of `sprintf` for a non-negative value). -/
def fmt_digits : Nat → Nat → List Nat → List Nat
  | 0, _, acc => acc
  | fuel + 1, n, acc =>
    if n < 10 then (48 + n) :: acc
    else fmt_digits fuel (n / 10) ((48 + n % 10) :: acc)

/-- `%d` of a natural number. -/
def fmt_nat (n : Nat) : List Nat := fmt_digits (n + 1) n []

/-- `%d` of an `int`: a minus sign for a negative value, then the digits. -/
def fmt_int (v : Int) : List Nat :=
  if v < 0 then 45 :: fmt_nat v.natAbs else fmt_nat v.natAbs

/-- The bytes of a string literal of the source (all of them are ASCII). -/
def lit (s : String) : List Nat := s.toList.map Char.toNat

/-- Result of one call of `strtok(..., ",")`, in terms of the memory cells
starting at the pointer the call scans from. -/
structure Strtok where
  /-- The cells the call has moved the saved pointer over, as it leaves them. -/
  passed : List Nat
  /-- The token returned (its characters), `none` for `NULL`. -/
  token : Option (List Nat)
  /-- The cells from the saved pointer on. -/
  saved : List Nat
  deriving DecidableEq, Repr

/-- The delimiter test of `strtok(..., ",")`: the character is a comma. -/
def is_delim (c : Nat) : Bool := c == 44

/-- The character can be part of a token: it is neither the delimiter nor the
NUL that ends the string. -/
def in_token (c : Nat) : Bool := c != 44 && c != 0

/-- One call of `strtok(p, ",")` on the cells `mem` at `p` (for a call with
`NULL`, the saved pointer): skip the leading commas; if the string ends there
return `NULL`; otherwise the token runs up to the next comma or NUL, a comma
is overwritten by NUL and the saved pointer moves behind it, while at a NUL
the saved pointer stays on it. -/
def strtok (mem : List Nat) : Strtok :=
  let skipped := mem.takeWhile is_delim
  match mem.dropWhile is_delim with
  | [] => { passed := skipped, token := none, saved := [] }
  | c :: m =>
    if c = 0 then { passed := skipped, token := none, saved := c :: m }
    else
      let tok := (c :: m).takeWhile in_token
      match (c :: m).dropWhile in_token with
      | [] => { passed := skipped ++ tok, token := some tok, saved := [] }
      | d :: r =>
        if d = 44 then { passed := skipped ++ tok ++ [0], token := some tok, saved := r }
        else { passed := skipped ++ tok, token := some tok, saved := d :: r }

/-! ## string_to_array (main.cpp 162-175) -/

/-- The variables of `string_to_array` while its loop runs. -/
structure Parse where
  /-- The local `num_integers`. -/
  num_integers : Nat
  /-- The array `int_array` points to. -/
  int_array : List Int
  /-- The cells of `in_str` before the saved pointer of `strtok`. -/
  passed : List Nat
  /-- The cells of `in_str` from the saved pointer on. -/
  saved : List Nat
  /-- Ghost: the indices of `int_array` stored so far, in order. -/
  writes : List Nat
  deriving DecidableEq, Repr

/-- The `while (token != NULL)` loop of `string_to_array`:
store `atoi(token)` at `num_integers++`, fetch the next token, and leave the
loop once `num_integers >= INT_ARRAY_SIZE`.  Every pass increments
`num_integers`, so `INT_ARRAY_SIZE` passes are all the loop can make. -/
def string_to_array_while : Nat → Option (List Nat) → Parse → Parse
  | 0, _, p => p
  | _ + 1, none, p => p
  | fuel + 1, some token, p =>
    let t := strtok p.saved
    let p1 : Parse :=
      { num_integers := p.num_integers + 1
        int_array := p.int_array.set p.num_integers (atoi token)
        passed := p.passed ++ t.passed
        saved := t.saved
        writes := p.writes ++ [p.num_integers] }
    if INT_ARRAY_SIZE ≤ p1.num_integers then p1
    else string_to_array_while fuel t.token p1

/-- The function `string_to_array(in_str, int_array)`; the result holds the
returned count, the array and the cells of `in_str` as the call leaves them. -/
def string_to_array (in_str : List Nat) (int_array : List Int) : Parse :=
  let t := strtok in_str
  string_to_array_while INT_ARRAY_SIZE t.token
    { num_integers := 0, int_array := int_array, passed := t.passed, saved := t.saved, writes := [] }

/-! ## binary32 arithmetic, on the rationals -/

/-- Floor of the base-2 logarithm of `n` by repeated halving (0 for `n < 2`);
`fuel` bounds the number of halvings. -/
def ilog2 : Nat → Nat → Nat
  | 0, _ => 0
  | fuel + 1, n => if n < 2 then 0 else ilog2 fuel (n / 2) + 1

/-- Round to the nearest integer, ties to the even one. -/
def rne (q : ℚ) : ℤ :=
  let f := ⌊q⌋
  let r := q - f
  if r < 1 / 2 then f else if 1 / 2 < r then f + 1 else if f % 2 = 0 then f else f + 1

/-- The binary exponent of a non-zero rational: the `e` with
`2 ^ e ≤ |q| < 2 ^ (e + 1)`. -/
def expo (q : ℚ) : ℤ :=
  let n := q.num.natAbs
  let d := q.den
  let e0 : ℤ := (ilog2 n n : ℤ) - (ilog2 d d : ℤ)
  if (2 : ℚ) ^ e0 ≤ |q| then e0 else e0 - 1

/-- Rounding of a rational to binary32, round-to-nearest-even: 24 significant
bits, spacing `2 ^ (e - 23)` in the binade of exponent `e`, and the fixed
spacing `2 ^ (-149)` below `2 ^ (-126)`. -/
def f32 (q : ℚ) : ℚ :=
  if q.num = 0 then 0
  else
    let u : ℚ := (2 : ℚ) ^ (max (expo q) (-126) - 23)
    (rne (q / u) : ℚ) * u

/-- The `round` applied to a `float` in `loop`: to the nearest integer,
halves away from zero.  Both the Arduino macro
`((x)>=0?(long)((x)+0.5):(long)((x)-0.5))` and the `round` of the C library
compute this. -/
def round (v : ℚ) : ℤ := if 0 ≤ v then ⌊v + 1 / 2⌋ else ⌈v - 1 / 2⌉

/-- The conversion `static_cast<int8_t>` of a rounded value: the value itself
when it is in `[-128, 127]`.  Outside that range the model reduces it modulo
`2 ^ 8`, which is what the conversion of a `long` does; the result is an
`int8_t` value in any case. -/
def int8_cast (r : ℤ) : ℤ := (r + 128) % 256 - 128

/-! ## Quantization parameters (main.cpp 33-36) -/

/-- The global `float input_scale = 0.15294118f`. -/
def input_scale : ℚ := f32 (15294118 / 100000000)

/-- The global `int input_zero_point = 3`. -/
def input_zero_point : ℤ := 3

/-- The global `float output_scale = 0.5166817f`. -/
def output_scale : ℚ := f32 (5166817 / 10000000)

/-- The global `int output_zero_point = -63`. -/
def output_zero_point : ℤ := -63

/-- The expression `round((x / scale) + zero_point)` of main.cpp 120, with
`x` and `zero_point` of type `int` and `scale` a `float`: both integers are
converted to `float`, and the quotient and the sum are rounded to `float`. -/
def quantize (scale : ℚ) (zero_point : ℤ) (x : ℤ) : ℤ :=
  round (f32 (f32 (f32 x / scale) + f32 zero_point))

/-- The expression `round((q - zero_point) * scale)` of main.cpp 138: the
difference is an `int`, converted to `float` for the product. -/
def dequantize (scale : ℚ) (zero_point : ℤ) (q : ℤ) : ℤ :=
  round (f32 (f32 (q - zero_point : ℤ) * scale))

/-! ## The tensors, the interpreter and the serial port -/

/-- The element type tag of a tensor (`TfLiteType`). -/
inductive TfLiteType
  | kTfLiteNoType
  | kTfLiteFloat32
  | kTfLiteInt32
  | kTfLiteUInt8
  | kTfLiteInt64
  | kTfLiteInt16
  | kTfLiteInt8
  deriving DecidableEq, Repr

/-- What the program uses of a `TfLiteTensor`: its type tag and its data seen
as `int8_t` cells (`data.int8`). -/
structure TfLiteTensor where
  /-- The field `type`. -/
  type : TfLiteType
  /-- The cells `data.int8[0]`, `data.int8[1]`, ... -/
  data : List Int
  deriving DecidableEq, Repr

/-- One item sent to the serial port. -/
inductive Out
  /-- `Serial.print` of a single character. -/
  | char (c : Nat)
  /-- `Serial.print` of a C string, given by its bytes. -/
  | text (s : List Nat)
  /-- `Serial.print` of a number; `none` is the value of an `int` that was
  never assigned. -/
  | num (v : Option Int)
  /-- The line end that `Serial.println` adds. -/
  | newline
  deriving DecidableEq, Repr

/-- The collaborators the program is linked with: the interpreter, whose
state has type `σ`, and the clock. -/
structure Env (σ : Type) where
  /-- One call of `interpreter->Invoke()`: from the interpreter state and the data of
  the input and output tensors to the status (`true` for `kTfLiteOk`), the new
  interpreter state and the new data of both tensors. -/
  Invoke : σ → List Int → List Int → Bool × σ × List Int × List Int
  /-- The value returned by call number `k` of `micros()`. -/
  micros : Nat → Nat
  /-- The tensors are allocated once, in `setup()`: a call of `Invoke` does not
  change the number of cells of the input tensor. -/
  Invoke_input_size : ∀ (st : σ) (i o : List Int), (Invoke st i o).2.2.1.length = i.length

/-- The globals of the program, and ghost fields that record its effects.
`received_char` and `chars_avail` are written in every pass before they are
read and are the argument of `loop`. -/
structure State (σ : Type) where
  /-- The text last formatted into `out_str_buff`, with its NUL; kept whole,
  whatever its length. -/
  out_str_buff : List Nat
  /-- The array `in_str_buff`. -/
  in_str_buff : List Nat
  /-- The array `input_array`. -/
  input_array : List Int
  /-- The cursor `in_buff_idx`. -/
  in_buff_idx : Nat
  /-- The global `array_length`. -/
  array_length : Nat
  /-- The global `array_sum`. -/
  array_sum : Int
  /-- The tensor `input` points to. -/
  input : TfLiteTensor
  /-- The tensor `output` points to. -/
  output : TfLiteTensor
  /-- The state of the interpreter. -/
  interpreter : σ
  /-- Ghost: everything sent to the serial port, oldest first. -/
  serial : List Out
  /-- Ghost: the indices of `in_str_buff` that `loop` stored to, oldest first. -/
  stores : List Nat
  /-- Ghost: the data of the input tensor at each call of `Invoke`, oldest first. -/
  calls : List (List Int)
  /-- Ghost: the number of calls of `micros()` made. -/
  ticks : Nat

variable {σ : Type}

/-- `Serial.print` of the items `o`. -/
def State.print (s : State σ) (o : List Out) : State σ :=
  { s with serial := s.serial ++ o }

/-- The statements `memset(in_str_buff, (char)0, INPUT_BUFFER_SIZE * sizeof(char));
in_buff_idx = 0;` (main.cpp 152-153 and 156-157). -/
def State.reset_line (s : State σ) : State σ :=
  { s with in_str_buff := List.replicate INPUT_BUFFER_SIZE 0, in_buff_idx := 0 }

/-- A store `in_str_buff[i] = c` of `loop`. -/
def State.store (s : State σ) (i c : Nat) : State σ :=
  { s with in_str_buff := s.in_str_buff.set i c, stores := s.stores ++ [i] }

/-- The C string that starts at the first cell of `mem`. -/
def c_str (mem : List Nat) : List Nat := mem.takeWhile (fun c => c != 0)

/-- The text `print_int_array` formats (main.cpp 221-231): `"Integers: ["`,
then `"%d, "` for each of the first `array_len` elements, then `"]\r\n"`. -/
def print_int_array_text (int_array : List Int) (array_len : Nat) : List Nat :=
  (List.range array_len).foldl
      (fun buf i => buf ++ fmt_int (int_array.getD i 0) ++ lit ", ") (lit "Integers: [")
    ++ lit "]\r\n"

/-- The function `print_int_array(int_array, array_len)`. -/
def print_int_array (s : State σ) (int_array : List Int) (array_len : Nat) : State σ :=
  let txt := print_int_array_text int_array array_len
  { s with out_str_buff := txt ++ [0] }.print [Out.text txt]

/-- The result of an `int` addition on the 32-bit two's complement targets:
the value itself when it lies in `[-2^31, 2^31 - 1]`, and the value reduced
modulo `2^32` into that range otherwise. -/
def wrap_int (x : Int) : Int := (x + 2147483648) % 4294967296 - 2147483648

/-- The function `sum_array(int_array, array_len)` (main.cpp 233-239):
`curr_sum` starts at 0 and `curr_sum += int_array[i]` is executed for
`i = 0 .. array_len - 1`, each addition being an addition of `int`. -/
def sum_array (int_array : List Int) (array_len : Nat) : Int :=
  (List.range array_len).foldl (fun curr_sum i => wrap_int (curr_sum + int_array.getD i 0)) 0

/-- The `for` loop of main.cpp 118-122: slot `i` of the input tensor, for
`i < 7`, receives `static_cast<int8_t>(round((input_array[i] / input_scale) +
input_zero_point))`. -/
def quantize_input (input_array : List Int) (data : List Int) : List Int :=
  (List.range 7).foldl
    (fun d i => d.set i (int8_cast (quantize input_scale input_zero_point (input_array.getD i 0))))
    data

/-- The local `prediction` of main.cpp 136-139 when it is printed: assigned
`round((output->data.int8[0] - output_zero_point) * output_scale)` if the
output tensor is int8, and never assigned (`none`) otherwise. -/
def prediction (output : TfLiteTensor) : Option Int :=
  if output.type = TfLiteType.kTfLiteInt8 then
    some (dequantize output_scale output_zero_point (output.data.getD 0 0))
  else none

/-- The difference of two `unsigned long` (32 bits). -/
def ulong_sub (a b : Nat) : Nat := (a % 4294967296 + 4294967296 - b % 4294967296) % 4294967296

/-- The statements of main.cpp 104-114: print the count, the array and its
sum, then `"Processing input..."` between two readings of the clock. -/
def announce (s : State σ) : State σ :=
  let head := lit "Read in " ++ fmt_int s.array_length ++ lit " integers: "
  let s := { s with out_str_buff := head ++ [0] }.print [Out.text head]
  let s := print_int_array s s.input_array s.array_length
  let s := { s with array_sum := sum_array s.input_array s.array_length }
  let sums := lit "Sums to " ++ fmt_int s.array_sum ++ lit "\r\n"
  let s := { s with out_str_buff := sums ++ [0] }.print [Out.text sums]
  let s := s.print [Out.text (lit "Processing input..."), Out.newline]
  { s with ticks := s.ticks + 2 }

/-- The `else` branch of main.cpp 103-150, entered with `array_length == 7`.
The second component is `true` when the branch leaves `loop` through the
`return` of line 125. -/
def infer (env : Env σ) (s : State σ) : State σ × Bool :=
  let t0 := env.micros s.ticks
  let t1 := env.micros (s.ticks + 1)
  let s := announce s
  if s.input.type = TfLiteType.kTfLiteInt8 then
    let s := { s with input := { s.input with data := quantize_input s.input_array s.input.data } }
    let r := env.Invoke s.interpreter s.input.data s.output.data
    let s := { s with
      calls := s.calls ++ [s.input.data]
      interpreter := r.2.1
      input := { s.input with data := r.2.2.1 }
      output := { s.output with data := r.2.2.2 } }
    if r.1 = false then
      (s.print [Out.text (lit "Error running inference."), Out.newline], false)
    else
      let t2 := env.micros s.ticks
      let s := { s with ticks := s.ticks + 1 }
      (s.print
        [ Out.text (lit "Model Prediction: "), Out.num (prediction s.output), Out.newline,
          Out.text (lit "Printing time = "), Out.num (some (ulong_sub t1 t0)),
          Out.text (lit " " ++ [194, 181] ++ lit "s. Inference time = "),
          Out.num (some (ulong_sub t2 t1)),
          Out.text (lit " " ++ [194, 181] ++ lit "s."), Out.newline ], false)
  else
    (s.print [Out.text (lit "Unsupported input type!"), Out.newline], true)

/-- The body of `if (received_char == 13)` after the NUL has been stored
(main.cpp 96-153): report the line, parse it, check the count, run the model,
clear the line buffer. -/
def process_line (env : Env σ) (s : State σ) : State σ :=
  let s := s.print
    [Out.text (lit "About to process line: "), Out.text (c_str s.in_str_buff), Out.newline]
  let p := string_to_array s.in_str_buff s.input_array
  let s : State σ := { s with
    in_str_buff := p.passed ++ p.saved
    input_array := p.int_array
    array_length := p.num_integers }
  if s.array_length ≠ 7 then
    (s.print [Out.text (lit "Error: Please enter exactly 7 numbers."), Out.newline]).reset_line
  else
    let r := infer env s
    if r.2 then r.1 else r.1.reset_line

/-- The function `loop()` (main.cpp 85-160), one pass.  `rx` is `none` when
`Serial.available()` is not positive, and else the byte `Serial.read()`
returns. -/
def loop (env : Env σ) (s : State σ) (rx : Option Nat) : State σ :=
  match rx with
  | none => s
  | some received_char =>
    let s := s.print [Out.char received_char]
    let s := { s.store s.in_buff_idx received_char with in_buff_idx := s.in_buff_idx + 1 }
    if received_char = 13 then process_line env (s.store s.in_buff_idx 0)
    else if INPUT_BUFFER_SIZE ≤ s.in_buff_idx then s.reset_line
    else s

/-- The passes of `loop` that receive the bytes `rx`, one byte a pass. -/
def run (env : Env σ) (s : State σ) (rx : List Nat) : State σ :=
  rx.foldl (fun s c => loop env s (some c)) s

/-- The state `setup()` leaves (main.cpp 55-83) when the model is accepted and
`AllocateTensors` succeeds; `input`, `output` and `interp` are the tensors and
the interpreter it obtains. -/
def setup (input output : TfLiteTensor) (interp : σ) : State σ :=
  { out_str_buff := List.replicate OUTPUT_BUFFER_SIZE 0
    in_str_buff := List.replicate INPUT_BUFFER_SIZE 0
    input_array := List.replicate INT_ARRAY_SIZE 0
    in_buff_idx := 0
    array_length := 0
    array_sum := 0
    input := input
    output := output
    interpreter := interp
    serial :=
      [ Out.text (lit "Test Project waking up"), Out.newline,
        Out.text (lit "Setup complete."), Out.newline ]
    stores := []
    calls := []
    ticks := 0 }

/-! ## Notions the statements use -/

/-- The tokens of the C string at `mem`, as the statements understand them:
the maximal non-empty runs of characters other than `','` before the first
NUL, in order.  `cur` is the run being read. -/
def tokens_from : List Nat → List Nat → List (List Nat)
  | [], cur => if cur = [] then [] else [cur]
  | c :: cs, cur =>
    if c = 0 then (if cur = [] then [] else [cur])
    else if c = 44 then (if cur = [] then tokens_from cs [] else cur :: tokens_from cs [])
    else tokens_from cs (cur ++ [c])

/-- The tokens of the C string at `mem`. -/
def tokens (mem : List Nat) : List (List Nat) := tokens_from mem []

/-- The line made of the decimal renderings of `xs` joined by `','`. -/
def csv_line (xs : List Int) : List Nat := List.intercalate [44] (xs.map fmt_int)

/-- The list is empty or starts with a character that is not a digit: what may
follow the digits of a number. -/
def ends_number (rest : List Nat) : Prop := ∀ c ∈ rest.head?, isdigit c = false

/-- An interpreter that leaves the tensors alone and always reports `ok`, with
a clock that stands still: the collaborators of the concrete runs below. -/
def env_const (ok : Bool) : Env Unit :=
  { Invoke := fun u i o => (ok, u, i, o)
    micros := fun _ => 0
    Invoke_input_size := fun _ _ _ => rfl }

/-- An interpreter that reports a failure at its first call and `ok` at the
later ones; its state counts the calls made.  It leaves the tensors alone. -/
def env_fail_first : Env Nat :=
  { Invoke := fun n i o => (n != 0, n + 1, i, o)
    micros := fun _ => 0
    Invoke_input_size := fun _ _ _ => rfl }

/-- The state after `setup()` with an input tensor of 7 cells and an output
tensor of 1 cell, of the given element types. -/
def fresh (tin tout : TfLiteType) : State Unit :=
  setup { type := tin, data := List.replicate 7 0 } { type := tout, data := [0] } ()

/-- The value is representable as an `int` of the 32-bit targets the
interpreter runs on. -/
def representable_int (x : Int) : Prop := -2147483648 ≤ x ∧ x ≤ 2147483647

/-- Whether a value is representable as an `int` can be computed. -/
instance representable_int_decidable (x : Int) : Decidable (representable_int x) :=
  inferInstanceAs (Decidable (-2147483648 ≤ x ∧ x ≤ 2147483647))

/-- The cells of `buf` after the characters `cs` have been stored one after the
other from index `i` on. -/
def write_at : List Nat → Nat → List Nat → List Nat
  | buf, _, [] => buf
  | buf, i, c :: cs => write_at (buf.set i c) (i + 1) cs

/-- The value the statement of C12 gives for an output cell `q`:
`round((q - output_zero_point) * 0.5166817)`, computed on the rationals with
the decimal constant. -/
def prediction_value (q : ℤ) : ℤ :=
  round (((q - output_zero_point : ℤ) : ℚ) * (5166817 / 10000000))

/-- An interpreter that reports `ok` and leaves `q` in the first cell of the
output tensor. -/
def env_output (q : Int) : Env Unit :=
  { Invoke := fun u i o => (true, u, i, o.set 0 q)
    micros := fun _ => 0
    Invoke_input_size := fun _ _ _ => rfl }

/-- What is left of a token after the optional leading white space and one
optional sign. -/
def after_sign (t : List Nat) : List Nat :=
  match t.dropWhile isspace with
  | [] => []
  | c :: r => if c = 45 ∨ c = 43 then r else c :: r

/-- The token is malformed: after optional leading white space and an
optional sign it does not start with a decimal digit. -/
def malformed (t : List Nat) : Prop := ends_number (after_sign t)

/-- The completed tokens of the characters `cs`, none of which is NUL, and the
token that is still open after the last of them; `cur` is the token open
before the first. -/
def scan : List Nat → List Nat → List (List Nat) × List Nat
  | [], cur => ([], cur)
  | c :: cs, cur =>
    if c = 44 then (if cur = [] then scan cs [] else (cur :: (scan cs []).1, (scan cs []).2))
    else scan cs (cur ++ [c])

/-! ## Lemmas on the C library model -/

theorem atoi_digits_stop (rest : List Nat) (h : ends_number rest) (a : Int) :
    atoi_digits rest a = a := by
  cases rest with
  | nil => rfl
  | cons c r =>
    have hc : isdigit c = false := h c (by simp)
    simp [atoi_digits, hc]

theorem atoi_digits_fmt (fuel : Nat) : ∀ (n : Nat) (tl : List Nat), n < fuel →
    atoi_digits (fmt_digits fuel n tl) 0 = atoi_digits tl n := by
  induction fuel with
  | zero => intro n tl h; omega
  | succ f ih =>
    intro n tl h
    unfold fmt_digits
    split
    · rename_i h10
      have : isdigit (48 + n) = true := by simp [isdigit]; omega
      simp [atoi_digits, this]
    · rename_i h10
      rw [ih (n / 10) _ (by omega)]
      have : isdigit (48 + n % 10) = true := by simp [isdigit]; omega
      simp only [atoi_digits, this, if_true]
      congr 1
      have : (48 + n % 10 - 48 : Nat) = n % 10 := by omega
      rw [this]
      omega

theorem fmt_digits_append (fuel : Nat) : ∀ (n : Nat) (a b : List Nat),
    fmt_digits fuel n (a ++ b) = fmt_digits fuel n a ++ b := by
  induction fuel with
  | zero => intro n a b; rfl
  | succ f ih =>
    intro n a b
    unfold fmt_digits
    split
    · rfl
    · rw [← ih]; rfl

theorem fmt_digits_isdigit (fuel : Nat) : ∀ (n : Nat) (tl : List Nat),
    (∀ c ∈ tl, isdigit c = true) → ∀ c ∈ fmt_digits fuel n tl, isdigit c = true := by
  induction fuel with
  | zero => intro n tl h; exact h
  | succ f ih =>
    intro n tl h
    unfold fmt_digits
    split
    · intro c hc
      rcases List.mem_cons.1 hc with rfl | hc
      · simp [isdigit]; omega
      · exact h c hc
    · apply ih
      intro c hc
      rcases List.mem_cons.1 hc with rfl | hc
      · simp [isdigit]; omega
      · exact h c hc

theorem fmt_digits_ne_nil (fuel : Nat) : ∀ (n : Nat) (tl : List Nat), n < fuel →
    fmt_digits fuel n tl ≠ [] := by
  induction fuel with
  | zero => intro n tl h; omega
  | succ f ih =>
    intro n tl h
    unfold fmt_digits
    split
    · simp
    · exact ih _ _ (by omega)

theorem fmt_nat_isdigit (n : Nat) : ∀ c ∈ fmt_nat n, isdigit c = true :=
  fmt_digits_isdigit _ _ _ (by simp)

theorem fmt_nat_ne_nil (n : Nat) : fmt_nat n ≠ [] := fmt_digits_ne_nil _ _ _ (by omega)

theorem atoi_cons (c : Nat) (r : List Nat) (h : isspace c = false) :
    atoi (c :: r) =
      if c = 45 then - atoi_digits r 0
      else if c = 43 then atoi_digits r 0
      else atoi_digits (c :: r) 0 := by
  unfold atoi
  rw [List.dropWhile_cons_of_neg (by simp [h])]

theorem isdigit_not_space {d : Nat} (h : isdigit d = true) :
    isspace d = false ∧ d ≠ 45 ∧ d ≠ 43 ∧ d ≠ 44 ∧ d ≠ 0 ∧ d ≠ 13 := by
  simp [isdigit] at h
  simp [isspace]
  omega

theorem atoi_fmt_nat (n : Nat) (rest : List Nat) (h : ends_number rest) :
    atoi (fmt_nat n ++ rest) = n := by
  have hval : atoi_digits (fmt_nat n ++ rest) 0 = n := by
    unfold fmt_nat
    rw [← fmt_digits_append, List.nil_append, atoi_digits_fmt _ _ _ (by omega),
      atoi_digits_stop rest h]
  obtain ⟨d, r, hd⟩ := List.exists_cons_of_ne_nil (fmt_nat_ne_nil n)
  have hdig : isdigit d = true := fmt_nat_isdigit n d (by rw [hd]; exact List.mem_cons_self _ _)
  obtain ⟨hsp, h45, h43, -⟩ := isdigit_not_space hdig
  rw [hd] at hval ⊢
  rw [List.cons_append] at hval ⊢
  rw [atoi_cons _ _ hsp, if_neg h45, if_neg h43]
  exact hval

theorem atoi_fmt_int (v : Int) (rest : List Nat) (h : ends_number rest) :
    atoi (fmt_int v ++ rest) = v := by
  unfold fmt_int
  split
  · rename_i hneg
    rw [List.cons_append, atoi_cons _ _ (by decide), if_pos rfl]
    have hpos := atoi_fmt_nat v.natAbs rest h
    obtain ⟨d, r, hd⟩ := List.exists_cons_of_ne_nil (fmt_nat_ne_nil v.natAbs)
    have hdig : isdigit d = true :=
      fmt_nat_isdigit _ d (by rw [hd]; exact List.mem_cons_self _ _)
    obtain ⟨hsp, h45, h43, -⟩ := isdigit_not_space hdig
    rw [hd, List.cons_append] at hpos ⊢
    rw [atoi_cons _ _ hsp, if_neg h45, if_neg h43] at hpos
    rw [hpos]; omega
  · rename_i hneg
    rw [atoi_fmt_nat _ _ h]; omega

/-! ## Lemmas on `strtok` and `string_to_array` -/

theorem tokens_from_span (m : List Nat) : ∀ cur : List Nat,
    tokens_from m cur = tokens_from (m.dropWhile in_token) (cur ++ m.takeWhile in_token) := by
  induction m with
  | nil => intro cur; simp
  | cons d m ih =>
    intro cur
    by_cases hd : in_token d = true
    · rw [List.dropWhile_cons_of_pos hd, List.takeWhile_cons_of_pos hd]
      have h0 : d ≠ 0 := by simp [in_token] at hd; exact hd.2
      have h44 : d ≠ 44 := by simp [in_token] at hd; exact hd.1
      rw [tokens_from, if_neg h0, if_neg h44, ih]
      simp
    · rw [List.dropWhile_cons_of_neg hd, List.takeWhile_cons_of_neg hd]
      simp

theorem tokens_from_skip (m : List Nat) :
    tokens_from m [] = tokens_from (m.dropWhile is_delim) [] := by
  induction m with
  | nil => simp
  | cons d m ih =>
    by_cases hd : is_delim d = true
    · rw [List.dropWhile_cons_of_pos hd]
      have h44 : d = 44 := by simpa [is_delim] using hd
      subst h44
      rw [tokens_from, if_neg (by decide), if_pos rfl, if_pos rfl, ih]
    · rw [List.dropWhile_cons_of_neg hd]

theorem strtok_tokens (m : List Nat) :
    ((strtok m).token = none ∧ tokens m = []) ∨
    (∃ t, (strtok m).token = some t ∧ tokens m = t :: tokens (strtok m).saved) := by
  unfold tokens strtok
  rw [tokens_from_skip m]
  cases hm : m.dropWhile is_delim with
  | nil => left; simp [tokens_from]
  | cons c r =>
    by_cases hc : c = 0
    · left; subst hc; simp [tokens_from]
    · right
      have hc44 : c ≠ 44 := by
        intro h
        have := List.head_dropWhile_not is_delim m (by rw [hm]; simp)
        simp [hm, h, is_delim] at this
      have hp : in_token c = true := by simp [in_token, hc, hc44]
      simp only [if_neg hc]
      rw [tokens_from_span (c :: r) [], List.nil_append]
      have htok : (c :: r).takeWhile in_token ≠ [] := by
        rw [List.takeWhile_cons_of_pos hp]; simp
      cases hr : (c :: r).dropWhile in_token with
      | nil => exact ⟨_, rfl, by simp [tokens_from, htok]⟩
      | cons d r2 =>
        by_cases hd : d = 44
        · subst hd
          refine ⟨(c :: r).takeWhile in_token, by simp, ?_⟩
          simp [tokens_from, htok]
        · have hd0 : d = 0 := by
            have := List.head_dropWhile_not in_token (c :: r) (by rw [hr]; simp)
            simp [hr, hd, in_token] at this
            exact this
          subst hd0
          refine ⟨(c :: r).takeWhile in_token, by simp, ?_⟩
          simp [tokens_from, htok]

theorem set_take_drop {α : Type} (a : List α) (k : Nat) (v : α) (vs : List α) (j : Nat)
    (hk : k < a.length) :
    (a.set k v).take (k + 1) ++ vs ++ (a.set k v).drop (k + 1 + j)
      = a.take k ++ v :: vs ++ a.drop (k + 1 + j) := by
  rw [List.set_eq_take_cons_drop v hk]
  have hlen : (a.take k).length = k := by simp; omega
  have e1 : (a.take k ++ v :: a.drop (k + 1)).take (k + 1) = a.take k ++ [v] := by
    rw [List.take_append_eq_append_take, hlen]
    simp
  have e2 : (a.take k ++ v :: a.drop (k + 1)).drop (k + 1 + j) = a.drop (k + 1 + j) := by
    rw [List.drop_append_eq_append_drop, hlen]
    have : (a.take k).drop (k + 1 + j) = [] := by
      apply List.drop_eq_nil_of_le; omega
    rw [this]
    have : k + 1 + j - k = j + 1 := by omega
    rw [this]
    simp [List.drop_drop]
  rw [e1, e2]
  simp

theorem string_to_array_while_spec (fuel : Nat) :
    ∀ (m : List Nat) (k : Nat) (a : List Int) (pa w : List Nat),
      k + fuel = INT_ARRAY_SIZE → a.length = INT_ARRAY_SIZE →
      (string_to_array_while fuel (strtok m).token
          { num_integers := k, int_array := a, passed := pa ++ (strtok m).passed,
            saved := (strtok m).saved, writes := w }).num_integers
        = k + min fuel (tokens m).length ∧
      (string_to_array_while fuel (strtok m).token
          { num_integers := k, int_array := a, passed := pa ++ (strtok m).passed,
            saved := (strtok m).saved, writes := w }).int_array
        = a.take k ++ ((tokens m).take fuel).map atoi
            ++ a.drop (k + min fuel (tokens m).length) ∧
      (string_to_array_while fuel (strtok m).token
          { num_integers := k, int_array := a, passed := pa ++ (strtok m).passed,
            saved := (strtok m).saved, writes := w }).writes
        = w ++ List.range' k (min fuel (tokens m).length) := by
  induction fuel with
  | zero =>
    intro m k a pa w hk ha
    simp [string_to_array_while]
  | succ f ih =>
    intro m k a pa w hk ha
    simp only [INT_ARRAY_SIZE] at hk ha
    rcases strtok_tokens m with ⟨hn, ht⟩ | ⟨t, hs, ht⟩
    · rw [hn, ht]
      simp [string_to_array_while]
    · rw [hs, ht]
      simp only [string_to_array_while]
      have hlen : k < a.length := by omega
      by_cases hfull : INT_ARRAY_SIZE ≤ k + 1
      · have hf : f = 0 := by simp only [INT_ARRAY_SIZE] at hfull; omega
        subst hf
        simp only [if_pos hfull]
        refine ⟨by simp, ?_, by simp [List.range']⟩
        have h := set_take_drop a k (atoi t) [] 0 hlen
        have e1 : (a.set k (atoi t)).drop (k + 1 + 0) = [] := by
          apply List.drop_eq_nil_of_le; simp; omega
        have e2 : a.drop (k + 1 + 0) = [] := by
          apply List.drop_eq_nil_of_le; omega
        have e3 : (a.set k (atoi t)).take (k + 1) = a.set k (atoi t) := by
          apply List.take_of_length_le; simp; omega
        rw [e1, e2, e3] at h
        simp at h
        simp
        have e4 : a.drop (k + 1) = [] := by
          apply List.drop_eq_nil_of_le; omega
        rw [e4, h]
      · simp only [if_neg hfull]
        simp only [INT_ARRAY_SIZE] at hfull
        obtain ⟨h1, h2, h3⟩ := ih (strtok m).saved (k + 1) (a.set k (atoi t))
          (pa ++ (strtok m).passed) (w ++ [k]) (by simp only [INT_ARRAY_SIZE]; omega)
          (by simpa using ha)
        refine ⟨?_, ?_, ?_⟩
        · rw [h1]; simp; omega
        · rw [h2]
          have hmin : k + 1 + min f (tokens (strtok m).saved).length
              = k + min (f + 1) (t :: tokens (strtok m).saved).length := by simp; omega
          rw [← hmin, set_take_drop a k _ _ _ hlen]
          simp
        · rw [h3]
          have hmin : min (f + 1) (t :: tokens (strtok m).saved).length
              = min f (tokens (strtok m).saved).length + 1 := by simp; omega
          rw [hmin, List.range'_succ]
          simp

theorem string_to_array_spec (m : List Nat) (a : List Int) (ha : a.length = INT_ARRAY_SIZE) :
    (string_to_array m a).num_integers = min INT_ARRAY_SIZE (tokens m).length ∧
    (string_to_array m a).int_array
      = ((tokens m).take INT_ARRAY_SIZE).map atoi
          ++ a.drop (min INT_ARRAY_SIZE (tokens m).length) ∧
    (string_to_array m a).writes = List.range (min INT_ARRAY_SIZE (tokens m).length) := by
  have h := string_to_array_while_spec INT_ARRAY_SIZE m 0 a [] [] (by simp) ha
  simp only [List.nil_append, Nat.zero_add, List.take_zero] at h
  unfold string_to_array
  refine ⟨h.1, h.2.1, ?_⟩
  rw [h.2.2, List.range_eq_range']

theorem tokens_from_token (t : List Nat) : ∀ (cur rest : List Nat),
    (∀ c ∈ t, in_token c = true) → tokens_from (t ++ rest) cur = tokens_from rest (cur ++ t) := by
  induction t with
  | nil => intro cur rest _; simp
  | cons d t ih =>
    intro cur rest h
    have hd : in_token d = true := h d (by simp)
    have h0 : d ≠ 0 := by simp [in_token] at hd; exact hd.2
    have h44 : d ≠ 44 := by simp [in_token] at hd; exact hd.1
    rw [List.cons_append, tokens_from, if_neg h0, if_neg h44,
      ih _ _ (fun c hc => h c (by simp [hc]))]
    simp

theorem tokens_comma (t rest : List Nat) (ht : ∀ c ∈ t, in_token c = true) (hne : t ≠ []) :
    tokens (t ++ 44 :: rest) = t :: tokens rest := by
  unfold tokens
  rw [tokens_from_token t [] _ ht]
  simp [tokens_from, hne]

theorem tokens_nul (t rest : List Nat) (ht : ∀ c ∈ t, in_token c = true) (hne : t ≠ []) :
    tokens (t ++ 0 :: rest) = [t] := by
  unfold tokens
  rw [tokens_from_token t [] _ ht]
  simp [tokens_from, hne]

theorem tokens_from_nul (l : List Nat) : ∀ (cur r : List Nat),
    tokens_from (l ++ 0 :: r) cur = tokens_from (l ++ [0]) cur := by
  induction l with
  | nil => intro cur r; simp [tokens_from]
  | cons c l ih =>
    intro cur r
    simp only [List.cons_append, tokens_from]
    split
    · rfl
    · split
      · split
        · exact ih _ _
        · exact congrArg (List.cons cur) (ih _ _)
      · exact ih _ _

theorem tokens_nul_rest (l r : List Nat) : tokens (l ++ 0 :: r) = tokens (l ++ [0]) :=
  tokens_from_nul l [] r

theorem fmt_int_chars (v : Int) :
    fmt_int v ≠ [] ∧ ∀ c ∈ fmt_int v, in_token c = true ∧ c ≠ 13 := by
  have hdig : ∀ c ∈ fmt_nat v.natAbs, in_token c = true ∧ c ≠ 13 := by
    intro c hc
    obtain ⟨-, -, -, h44, h0, h13⟩ := isdigit_not_space (fmt_nat_isdigit _ c hc)
    exact ⟨by simp [in_token, h44, h0], h13⟩
  unfold fmt_int
  split
  · refine ⟨by simp, ?_⟩
    intro c hc
    rcases List.mem_cons.1 hc with rfl | hc
    · exact ⟨by decide, by decide⟩
    · exact hdig c hc
  · exact ⟨fmt_nat_ne_nil _, hdig⟩

theorem csv_line_seven (x1 x2 x3 x4 x5 x6 x7 : Int) :
    csv_line [x1, x2, x3, x4, x5, x6, x7] =
      fmt_int x1 ++ 44 :: (fmt_int x2 ++ 44 :: (fmt_int x3 ++ 44 :: (fmt_int x4 ++ 44 ::
        (fmt_int x5 ++ 44 :: (fmt_int x6 ++ 44 :: fmt_int x7))))) := by
  simp [csv_line, List.intercalate]

theorem tokens_csv_line_seven (x1 x2 x3 x4 x5 x6 x7 : Int) (rest : List Nat) :
    (tokens (csv_line [x1, x2, x3, x4, x5, x6, x7] ++ 13 :: 0 :: rest)).map atoi
      = [x1, x2, x3, x4, x5, x6, x7] ∧
    (tokens (csv_line [x1, x2, x3, x4, x5, x6, x7] ++ 13 :: 0 :: rest)).length = 7 := by
  have hin : ∀ v : Int, ∀ c ∈ fmt_int v, in_token c = true := fun v c hc =>
    ((fmt_int_chars v).2 c hc).1
  have hne : ∀ v : Int, fmt_int v ≠ [] := fun v => (fmt_int_chars v).1
  have hlast : ∀ c ∈ fmt_int x7 ++ [13], in_token c = true := by
    intro c hc
    rcases List.mem_append.1 hc with hc | hc
    · exact hin x7 c hc
    · simp at hc; subst hc; decide
  have e : csv_line [x1, x2, x3, x4, x5, x6, x7] ++ 13 :: 0 :: rest =
      fmt_int x1 ++ 44 :: (fmt_int x2 ++ 44 :: (fmt_int x3 ++ 44 :: (fmt_int x4 ++ 44 ::
        (fmt_int x5 ++ 44 :: (fmt_int x6 ++ 44 :: ((fmt_int x7 ++ [13]) ++ 0 :: rest)))))) := by
    rw [csv_line_seven]; simp
  rw [e, tokens_comma _ _ (hin x1) (hne x1), tokens_comma _ _ (hin x2) (hne x2),
    tokens_comma _ _ (hin x3) (hne x3), tokens_comma _ _ (hin x4) (hne x4),
    tokens_comma _ _ (hin x5) (hne x5), tokens_comma _ _ (hin x6) (hne x6),
    tokens_nul _ _ hlast (by simp)]
  have hnil : ends_number [] := by intro c hc; simp at hc
  have hcr : ends_number [13] := by intro c hc; simp at hc; subst hc; decide
  have h0 : ∀ v : Int, atoi (fmt_int v) = v := fun v => by
    have := atoi_fmt_int v [] hnil
    simpa using this
  simp [h0, atoi_fmt_int x7 [13] hcr]

theorem csv_line_seven_no_cr (x1 x2 x3 x4 x5 x6 x7 : Int) :
    13 ∉ csv_line [x1, x2, x3, x4, x5, x6, x7] := by
  have h : ∀ v : Int, 13 ∉ fmt_int v := fun v hc => ((fmt_int_chars v).2 13 hc).2 rfl
  rw [csv_line_seven]
  simp [h]

theorem length_seven (xs : List Int) (hx : xs.length = 7) :
    ∃ x1 x2 x3 x4 x5 x6 x7, xs = [x1, x2, x3, x4, x5, x6, x7] := by
  match xs, hx with
  | [x1, x2, x3, x4, x5, x6, x7], _ => exact ⟨x1, x2, x3, x4, x5, x6, x7, rfl⟩

theorem length_ge_seven {α : Type} (l : List α) (h : 7 ≤ l.length) :
    ∃ x1 x2 x3 x4 x5 x6 x7 r, l = x1 :: x2 :: x3 :: x4 :: x5 :: x6 :: x7 :: r := by
  match l, h with
  | x1 :: x2 :: x3 :: x4 :: x5 :: x6 :: x7 :: r, _ => exact ⟨x1, x2, x3, x4, x5, x6, x7, r, rfl⟩

/-! ## Lemmas on `loop`: receiving the characters of a line -/

theorem loop_char (env : Env σ) (s : State σ) (c : Nat) (hc : c ≠ 13)
    (hi : s.in_buff_idx + 1 < INPUT_BUFFER_SIZE) :
    loop env s (some c) =
      { s with
        in_str_buff := s.in_str_buff.set s.in_buff_idx c
        in_buff_idx := s.in_buff_idx + 1
        serial := s.serial ++ [Out.char c]
        stores := s.stores ++ [s.in_buff_idx] } := by
  have h2 : ¬ (INPUT_BUFFER_SIZE ≤ s.in_buff_idx + 1) := by omega
  simp [loop, hc, State.print, State.store, h2]

theorem loop_char_full (env : Env σ) (s : State σ) (c : Nat) (hc : c ≠ 13)
    (hi : INPUT_BUFFER_SIZE ≤ s.in_buff_idx + 1) :
    loop env s (some c) =
      { s with
        in_str_buff := List.replicate INPUT_BUFFER_SIZE 0
        in_buff_idx := 0
        serial := s.serial ++ [Out.char c]
        stores := s.stores ++ [s.in_buff_idx] } := by
  simp [loop, hc, State.print, State.store, State.reset_line, hi]

theorem run_chars (env : Env σ) (cs : List Nat) : ∀ s : State σ, 13 ∉ cs →
    s.in_buff_idx + cs.length < INPUT_BUFFER_SIZE →
    run env s cs =
      { s with
        in_str_buff := write_at s.in_str_buff s.in_buff_idx cs
        in_buff_idx := s.in_buff_idx + cs.length
        serial := s.serial ++ cs.map Out.char
        stores := s.stores ++ List.range' s.in_buff_idx cs.length } := by
  induction cs with
  | nil => intro s _ _; simp [run, write_at]
  | cons c cs ih =>
    intro s h13 hlen
    have hc : c ≠ 13 := fun h => h13 (by simp [h])
    have hcs : 13 ∉ cs := fun h => h13 (by simp [h])
    simp only [List.length_cons] at hlen
    have hstep := loop_char env s c hc (by omega)
    have hrun : run env s (c :: cs) = run env (loop env s (some c)) cs := by
      simp [run]
    rw [hrun, hstep, ih _ hcs (by simp; omega)]
    simp [write_at, List.range'_succ, Nat.add_assoc, Nat.add_comm 1]

theorem write_at_length (cs : List Nat) : ∀ (buf : List Nat) (i : Nat),
    (write_at buf i cs).length = buf.length := by
  induction cs with
  | nil => intro buf i; rfl
  | cons c cs ih => intro buf i; simp [write_at, ih]

theorem write_at_eq (cs : List Nat) : ∀ (buf : List Nat) (i : Nat),
    i + cs.length ≤ buf.length →
    write_at buf i cs = buf.take i ++ cs ++ buf.drop (i + cs.length) := by
  induction cs with
  | nil => intro buf i _; simp [write_at]
  | cons c cs ih =>
    intro buf i h
    simp only [List.length_cons] at h
    have hi : i < buf.length := by omega
    rw [write_at, ih _ _ (by simp; omega)]
    have h1 := set_take_drop buf i c cs cs.length hi
    simp only [List.length_cons]
    have e : i + (cs.length + 1) = i + 1 + cs.length := by omega
    rw [e, h1]

theorem run_append (env : Env σ) (s : State σ) (a b : List Nat) :
    run env s (a ++ b) = run env (run env s a) b := by
  simp [run]

theorem loop_cr (env : Env σ) (s : State σ) :
    loop env s (some 13) =
      process_line env
        { s with
          in_str_buff := (s.in_str_buff.set s.in_buff_idx 13).set (s.in_buff_idx + 1) 0
          in_buff_idx := s.in_buff_idx + 1
          serial := s.serial ++ [Out.char 13]
          stores := s.stores ++ [s.in_buff_idx, s.in_buff_idx + 1] } := by
  simp [loop, State.print, State.store]

/-- The state in which `process_line` runs when the characters `cs` and then
the terminator have been received from an empty line buffer. -/
theorem run_line (env : Env σ) (s : State σ) (cs : List Nat) (h13 : 13 ∉ cs)
    (hi : s.in_buff_idx = 0) (hb : s.in_str_buff.length = INPUT_BUFFER_SIZE)
    (hl : cs.length ≤ 62) :
    run env s (cs ++ [13]) =
      process_line env
        { s with
          in_str_buff := cs ++ 13 :: 0 :: s.in_str_buff.drop (cs.length + 2)
          in_buff_idx := cs.length + 1
          serial := s.serial ++ cs.map Out.char ++ [Out.char 13]
          stores := s.stores ++ List.range (cs.length + 2) } := by
  simp only [INPUT_BUFFER_SIZE] at hb
  rw [run_append, run_chars env cs s h13 (by simp only [INPUT_BUFFER_SIZE]; omega)]
  have hone : ∀ t : State σ, run env t [13] = loop env t (some 13) := fun t => by simp [run]
  rw [hone, loop_cr]
  congr 1
  have hw := write_at_eq cs s.in_str_buff 0 (by omega)
  simp only [hi, Nat.zero_add, List.take_zero, List.nil_append] at hw ⊢
  rw [hw]
  have hlen : (cs ++ s.in_str_buff.drop cs.length).length = 64 := by simp; omega
  have e2 := List.set_eq_take_cons_drop 13
    (show cs.length < (cs ++ s.in_str_buff.drop cs.length).length by omega)
  have e3 : ((cs ++ s.in_str_buff.drop cs.length).set cs.length 13).set (cs.length + 1) 0
      = cs ++ 13 :: 0 :: s.in_str_buff.drop (cs.length + 2) := by
    rw [e2]
    have t1 : (cs ++ s.in_str_buff.drop cs.length).take cs.length = cs := by simp
    have t2 : (cs ++ s.in_str_buff.drop cs.length).drop (cs.length + 1)
        = s.in_str_buff.drop (cs.length + 1) := by
      rw [List.drop_append_eq_append_drop]
      simp [List.drop_drop]
    rw [t1, t2]
    rw [List.set_append_right _ _ (by omega)]
    have t3 : cs.length + 1 - cs.length = 1 := by omega
    rw [t3]
    have t4 : s.in_str_buff.drop (cs.length + 1) ≠ [] := by
      intro h
      have := congrArg List.length h
      simp at this; omega
    obtain ⟨d, r, hd⟩ := List.exists_cons_of_ne_nil t4
    have t5 : s.in_str_buff.drop (cs.length + 2) = r := by
      have := congrArg (List.drop 1) hd
      simpa [List.drop_drop, Nat.add_comm 1] using this
    rw [hd, t5]
    rfl
  rw [e3]
  have e4 : s.stores ++ List.range' 0 cs.length ++ [cs.length, cs.length + 1]
      = s.stores ++ List.range (cs.length + 2) := by
    rw [List.range_eq_range', List.append_assoc]
    congr 1
    rw [show cs.length + 2 = cs.length + 1 + 1 from rfl, List.range'_concat, List.range'_concat]
    simp
  simp [e4]

theorem setup_facts (tin tout : TfLiteTensor) (it : σ) :
    (setup tin tout it).in_buff_idx = 0 ∧
    (setup tin tout it).in_str_buff.length = INPUT_BUFFER_SIZE ∧
    (setup tin tout it).input_array.length = INT_ARRAY_SIZE ∧
    (setup tin tout it).input = tin ∧
    (setup tin tout it).calls = [] := by
  refine ⟨rfl, ?_, ?_, rfl, rfl⟩ <;> simp [setup]

/-! ## Lemmas on the binary32 model -/

theorem ilog2_spec (fuel : Nat) : ∀ n : Nat, 1 ≤ n → n ≤ fuel →
    2 ^ ilog2 fuel n ≤ n ∧ n < 2 ^ (ilog2 fuel n + 1) := by
  induction fuel with
  | zero => intro n h1 h2; omega
  | succ f ih =>
    intro n h1 h2
    unfold ilog2
    split
    · rename_i hlt
      have : n = 1 := by omega
      subst this
      simp
    · rename_i hge
      obtain ⟨l, u⟩ := ih (n / 2) (by omega) (by omega)
      constructor
      · rw [pow_succ]; omega
      · rw [pow_succ]; omega

theorem two_zpow_pos (e : ℤ) : (0 : ℚ) < 2 ^ e := zpow_pos (by norm_num) e

theorem expo_le (q : ℚ) (hq : q ≠ 0) : (2 : ℚ) ^ expo q ≤ |q| := by
  unfold expo
  simp only
  split
  · assumption
  · have hn : 1 ≤ q.num.natAbs := by
      have : q.num ≠ 0 := by simpa using hq
      omega
    have hd : 1 ≤ q.den := q.den_pos
    obtain ⟨ln, -⟩ := ilog2_spec _ _ hn le_rfl
    obtain ⟨-, ud⟩ := ilog2_spec _ _ hd le_rfl
    have habs : |q| = (q.num.natAbs : ℚ) / (q.den : ℚ) := by
      have h : |q| = |(q.num : ℚ) / (q.den : ℚ)| := by rw [Rat.num_div_den]
      rw [h, abs_div, Nat.abs_cast, Nat.cast_natAbs, Int.cast_abs]
    rw [habs, le_div_iff₀ (by exact_mod_cast hd)]
    have e1 : ((2 : ℚ) ^ ((ilog2 q.num.natAbs q.num.natAbs : ℤ) - (ilog2 q.den q.den : ℤ) - 1))
        * (2 : ℚ) ^ ((ilog2 q.den q.den : ℤ) + 1) = (2 : ℚ) ^ (ilog2 q.num.natAbs q.num.natAbs : ℤ) := by
      rw [← zpow_add₀ (by norm_num)]
      congr 1; ring
    have e2 : (q.den : ℚ) ≤ (2 : ℚ) ^ ((ilog2 q.den q.den : ℤ) + 1) := by
      have : (q.den : ℚ) < ((2 ^ (ilog2 q.den q.den + 1) : ℕ) : ℚ) := by exact_mod_cast ud
      have h2 : ((2 ^ (ilog2 q.den q.den + 1) : ℕ) : ℚ) = (2 : ℚ) ^ ((ilog2 q.den q.den : ℤ) + 1) := by
        push_cast
        rw [← zpow_natCast]
        congr 1
      rw [← h2]; exact le_of_lt this
    have e3 : (2 : ℚ) ^ (ilog2 q.num.natAbs q.num.natAbs : ℤ) ≤ (q.num.natAbs : ℚ) := by
      have : ((2 ^ ilog2 q.num.natAbs q.num.natAbs : ℕ) : ℚ) ≤ (q.num.natAbs : ℚ) := by
        exact_mod_cast ln
      rw [zpow_natCast]
      exact_mod_cast this
    calc (2 : ℚ) ^ ((ilog2 q.num.natAbs q.num.natAbs : ℤ) - (ilog2 q.den q.den : ℤ) - 1) * (q.den : ℚ)
        ≤ (2 : ℚ) ^ ((ilog2 q.num.natAbs q.num.natAbs : ℤ) - (ilog2 q.den q.den : ℤ) - 1)
            * (2 : ℚ) ^ ((ilog2 q.den q.den : ℤ) + 1) :=
          mul_le_mul_of_nonneg_left e2 (le_of_lt (two_zpow_pos _))
      _ = (2 : ℚ) ^ (ilog2 q.num.natAbs q.num.natAbs : ℤ) := e1
      _ ≤ (q.num.natAbs : ℚ) := e3

theorem expo_lt (q : ℚ) (hq : q ≠ 0) : |q| < (2 : ℚ) ^ (expo q + 1) := by
  unfold expo
  simp only
  split
  · have hn : 1 ≤ q.num.natAbs := by
      have : q.num ≠ 0 := by simpa using hq
      omega
    have hd : 1 ≤ q.den := q.den_pos
    obtain ⟨-, un⟩ := ilog2_spec _ _ hn le_rfl
    obtain ⟨ld, -⟩ := ilog2_spec _ _ hd le_rfl
    have habs : |q| = (q.num.natAbs : ℚ) / (q.den : ℚ) := by
      have h : |q| = |(q.num : ℚ) / (q.den : ℚ)| := by rw [Rat.num_div_den]
      rw [h, abs_div, Nat.abs_cast, Nat.cast_natAbs, Int.cast_abs]
    rw [habs, div_lt_iff₀ (by exact_mod_cast hd)]
    have e1 : (2 : ℚ) ^ ((ilog2 q.num.natAbs q.num.natAbs : ℤ) - (ilog2 q.den q.den : ℤ) + 1)
        * (2 : ℚ) ^ (ilog2 q.den q.den : ℤ)
        = (2 : ℚ) ^ ((ilog2 q.num.natAbs q.num.natAbs : ℤ) + 1) := by
      rw [← zpow_add₀ (by norm_num)]
      congr 1; ring
    have e2 : (2 : ℚ) ^ (ilog2 q.den q.den : ℤ) ≤ (q.den : ℚ) := by
      rw [zpow_natCast]
      exact_mod_cast ld
    have e3 : (q.num.natAbs : ℚ) < (2 : ℚ) ^ ((ilog2 q.num.natAbs q.num.natAbs : ℤ) + 1) := by
      have h1 : (q.num.natAbs : ℚ) < ((2 ^ (ilog2 q.num.natAbs q.num.natAbs + 1) : ℕ) : ℚ) := by
        exact_mod_cast un
      have h2 : ((2 ^ (ilog2 q.num.natAbs q.num.natAbs + 1) : ℕ) : ℚ)
          = (2 : ℚ) ^ ((ilog2 q.num.natAbs q.num.natAbs : ℤ) + 1) := by
        push_cast
        rw [← zpow_natCast]
        congr 1
      rw [← h2]; exact h1
    calc (q.num.natAbs : ℚ)
        < (2 : ℚ) ^ ((ilog2 q.num.natAbs q.num.natAbs : ℤ) + 1) := e3
      _ = (2 : ℚ) ^ ((ilog2 q.num.natAbs q.num.natAbs : ℤ) - (ilog2 q.den q.den : ℤ) + 1)
            * (2 : ℚ) ^ (ilog2 q.den q.den : ℤ) := e1.symm
      _ ≤ (2 : ℚ) ^ ((ilog2 q.num.natAbs q.num.natAbs : ℤ) - (ilog2 q.den q.den : ℤ) + 1)
            * (q.den : ℚ) :=
          mul_le_mul_of_nonneg_left e2 (le_of_lt (two_zpow_pos _))
  · rename_i h
    have e : (ilog2 q.num.natAbs q.num.natAbs : ℤ) - (ilog2 q.den q.den : ℤ) - 1 + 1
        = (ilog2 q.num.natAbs q.num.natAbs : ℤ) - (ilog2 q.den q.den : ℤ) := by ring
    rw [e]
    exact lt_of_not_le h

theorem rne_ge (t : ℚ) (n : ℤ) (h : (n : ℚ) ≤ t) : n ≤ rne t := by
  have hf : n ≤ ⌊t⌋ := Int.le_floor.2 h
  unfold rne
  simp only
  split
  · exact hf
  · split
    · omega
    · split <;> omega

theorem rne_le (t : ℚ) (n : ℤ) (h : t ≤ (n : ℚ)) : rne t ≤ n := by
  have hf : ⌊t⌋ ≤ n := by
    have := Int.floor_le t
    exact_mod_cast (le_trans this h)
  unfold rne
  simp only
  split
  · exact hf
  · rename_i hr
    have hlt : (⌊t⌋ : ℚ) < n := by
      have : (⌊t⌋ : ℚ) < t := by linarith
      linarith
    have : ⌊t⌋ + 1 ≤ n := by exact_mod_cast hlt
    split
    · exact this
    · split <;> omega

theorem f32_eq (q : ℚ) (hq : q ≠ 0) :
    f32 q = (rne (q / (2 : ℚ) ^ (max (expo q) (-126) - 23)) : ℚ)
      * (2 : ℚ) ^ (max (expo q) (-126) - 23) := by
  unfold f32
  rw [if_neg (by simpa using hq)]

theorem two_zpow_split (e : ℤ) : (8388608 : ℚ) * (2 : ℚ) ^ (e - 23) = (2 : ℚ) ^ e := by
  have h : (8388608 : ℚ) = (2 : ℚ) ^ (23 : ℤ) := by norm_num
  rw [h, ← zpow_add₀ (by norm_num)]
  congr 1; ring

/-- Rounding to binary32 does not go below a positive integer of at most 24
bits that the value is not below. -/
theorem f32_ge (q : ℚ) (c : ℕ) (hc24 : c ≤ 2 ^ 24) (h : (c : ℚ) ≤ q) (hq : 0 < q) :
    (c : ℚ) ≤ f32 q := by
  rw [f32_eq q (ne_of_gt hq)]
  have hu := two_zpow_pos (max (expo q) (-126) - 23)
  by_cases hE : max (expo q) (-126) ≤ 23
  · obtain ⟨k, hk⟩ : ∃ k : ℕ, (k : ℤ) = 23 - max (expo q) (-126) :=
      ⟨(23 - max (expo q) (-126)).toNat, Int.toNat_of_nonneg (by omega)⟩
    have hinv : (2 : ℚ) ^ (max (expo q) (-126) - 23) * (2 : ℚ) ^ k = 1 := by
      rw [← zpow_natCast, ← zpow_add₀ (by norm_num), hk]
      simp
    have hdiv : q / (2 : ℚ) ^ (max (expo q) (-126) - 23) = q * (2 : ℚ) ^ k := by
      rw [div_eq_iff (ne_of_gt hu), mul_assoc, mul_comm ((2 : ℚ) ^ k), hinv, mul_one]
    have hN : (((c * 2 ^ k : ℕ) : ℤ) : ℚ) ≤ q / (2 : ℚ) ^ (max (expo q) (-126) - 23) := by
      rw [hdiv]; push_cast
      exact mul_le_mul_of_nonneg_right h (by positivity)
    have hr := rne_ge _ _ hN
    have hr' : (((c * 2 ^ k : ℕ) : ℤ) : ℚ) ≤ (rne (q / (2 : ℚ) ^ (max (expo q) (-126) - 23)) : ℚ) := by
      exact_mod_cast hr
    calc (c : ℚ) = (c : ℚ) * ((2 : ℚ) ^ k * (2 : ℚ) ^ (max (expo q) (-126) - 23)) := by
          rw [mul_comm ((2 : ℚ) ^ k), hinv, mul_one]
      _ = (((c * 2 ^ k : ℕ) : ℤ) : ℚ) * (2 : ℚ) ^ (max (expo q) (-126) - 23) := by
          push_cast; ring
      _ ≤ _ := mul_le_mul_of_nonneg_right hr' (le_of_lt hu)
  · have hEq : max (expo q) (-126) = expo q := by
      rcases max_choice (expo q) (-126) with h1 | h1
      · exact h1
      · omega
    rw [hEq] at hE ⊢
    have hex := expo_le q (ne_of_gt hq)
    rw [abs_of_pos hq] at hex
    have h23 : (((2 ^ 23 : ℕ) : ℤ) : ℚ) ≤ q / (2 : ℚ) ^ (expo q - 23) := by
      rw [le_div_iff₀ (two_zpow_pos _)]
      have : (((2 ^ 23 : ℕ) : ℤ) : ℚ) * (2 : ℚ) ^ (expo q - 23) = (2 : ℚ) ^ expo q := by
        push_cast
        exact two_zpow_split _
      rw [this]; exact hex
    have hr := rne_ge _ _ h23
    have hr' : (((2 ^ 23 : ℕ) : ℤ) : ℚ) ≤ (rne (q / (2 : ℚ) ^ (expo q - 23)) : ℚ) := by
      exact_mod_cast hr
    have h24 : (2 : ℚ) ^ (24 : ℤ) ≤ (2 : ℚ) ^ expo q :=
      zpow_le_zpow_right₀ (by norm_num) (by omega)
    calc (c : ℚ) ≤ ((2 ^ 24 : ℕ) : ℚ) := by exact_mod_cast hc24
      _ = (2 : ℚ) ^ (24 : ℤ) := by norm_num
      _ ≤ (2 : ℚ) ^ expo q := h24
      _ = (((2 ^ 23 : ℕ) : ℤ) : ℚ) * (2 : ℚ) ^ (expo q - 23) := by
        push_cast
        exact (two_zpow_split _).symm
      _ ≤ _ := mul_le_mul_of_nonneg_right hr' (le_of_lt (two_zpow_pos _))

/-- Rounding to binary32 does not go above the opposite of a positive integer
of at most 24 bits that the value is not above. -/
theorem f32_le (q : ℚ) (c : ℕ) (hc24 : c ≤ 2 ^ 24) (h : q ≤ -(c : ℚ)) (hq : q < 0) :
    f32 q ≤ -(c : ℚ) := by
  rw [f32_eq q (ne_of_lt hq)]
  have hu := two_zpow_pos (max (expo q) (-126) - 23)
  by_cases hE : max (expo q) (-126) ≤ 23
  · obtain ⟨k, hk⟩ : ∃ k : ℕ, (k : ℤ) = 23 - max (expo q) (-126) :=
      ⟨(23 - max (expo q) (-126)).toNat, Int.toNat_of_nonneg (by omega)⟩
    have hinv : (2 : ℚ) ^ (max (expo q) (-126) - 23) * (2 : ℚ) ^ k = 1 := by
      rw [← zpow_natCast, ← zpow_add₀ (by norm_num), hk]
      simp
    have hdiv : q / (2 : ℚ) ^ (max (expo q) (-126) - 23) = q * (2 : ℚ) ^ k := by
      rw [div_eq_iff (ne_of_gt hu), mul_assoc, mul_comm ((2 : ℚ) ^ k), hinv, mul_one]
    have hN : q / (2 : ℚ) ^ (max (expo q) (-126) - 23) ≤ ((-((c * 2 ^ k : ℕ) : ℤ) : ℤ) : ℚ) := by
      rw [hdiv]; push_cast
      have := mul_le_mul_of_nonneg_right h (show (0 : ℚ) ≤ (2 : ℚ) ^ k by positivity)
      linarith
    have hr := rne_le _ _ hN
    have hr' : (rne (q / (2 : ℚ) ^ (max (expo q) (-126) - 23)) : ℚ)
        ≤ ((-((c * 2 ^ k : ℕ) : ℤ) : ℤ) : ℚ) := by
      exact_mod_cast hr
    calc _ ≤ ((-((c * 2 ^ k : ℕ) : ℤ) : ℤ) : ℚ) * (2 : ℚ) ^ (max (expo q) (-126) - 23) :=
          mul_le_mul_of_nonneg_right hr' (le_of_lt hu)
      _ = -((c : ℚ) * ((2 : ℚ) ^ k * (2 : ℚ) ^ (max (expo q) (-126) - 23))) := by
          push_cast; ring
      _ = -(c : ℚ) := by rw [mul_comm ((2 : ℚ) ^ k), hinv, mul_one]
  · have hEq : max (expo q) (-126) = expo q := by
      rcases max_choice (expo q) (-126) with h1 | h1
      · exact h1
      · omega
    rw [hEq] at hE ⊢
    have hex := expo_le q (ne_of_lt hq)
    rw [abs_of_neg hq] at hex
    have h23 : q / (2 : ℚ) ^ (expo q - 23) ≤ ((-((2 ^ 23 : ℕ) : ℤ) : ℤ) : ℚ) := by
      rw [div_le_iff₀ (two_zpow_pos _)]
      have : ((-((2 ^ 23 : ℕ) : ℤ) : ℤ) : ℚ) * (2 : ℚ) ^ (expo q - 23) = -(2 : ℚ) ^ expo q := by
        push_cast
        rw [neg_mul, two_zpow_split]
      rw [this]; linarith
    have hr := rne_le _ _ h23
    have hr' : (rne (q / (2 : ℚ) ^ (expo q - 23)) : ℚ) ≤ ((-((2 ^ 23 : ℕ) : ℤ) : ℤ) : ℚ) := by
      exact_mod_cast hr
    have h24 : (2 : ℚ) ^ (24 : ℤ) ≤ (2 : ℚ) ^ expo q :=
      zpow_le_zpow_right₀ (by norm_num) (by omega)
    have hc' : (c : ℚ) ≤ (2 : ℚ) ^ (24 : ℤ) := by
      have : (c : ℚ) ≤ ((2 ^ 24 : ℕ) : ℚ) := by exact_mod_cast hc24
      have e : ((2 ^ 24 : ℕ) : ℚ) = (2 : ℚ) ^ (24 : ℤ) := by norm_num
      rw [← e]; exact this
    calc _ ≤ ((-((2 ^ 23 : ℕ) : ℤ) : ℤ) : ℚ) * (2 : ℚ) ^ (expo q - 23) :=
          mul_le_mul_of_nonneg_right hr' (le_of_lt (two_zpow_pos _))
      _ = -(2 : ℚ) ^ expo q := by
          push_cast
          rw [neg_mul, two_zpow_split]
      _ ≤ -(c : ℚ) := by linarith

theorem round_ge (v : ℚ) (n : ℤ) (hn : 0 ≤ n) (h : (n : ℚ) ≤ v) : n ≤ round v := by
  have hv : (0 : ℚ) ≤ v := le_trans (by exact_mod_cast hn) h
  unfold round
  rw [if_pos hv]
  apply Int.le_floor.2
  linarith

theorem round_le (v : ℚ) (n : ℤ) (hn : n < 0) (h : v ≤ (n : ℚ)) : round v ≤ n := by
  have hv : ¬ (0 : ℚ) ≤ v := by
    have : (n : ℚ) < 0 := by exact_mod_cast hn
    intro h0; linarith
  unfold round
  rw [if_neg hv]
  apply Int.ceil_le.2
  linarith

theorem input_scale_eq : input_scale = 10263709 / 67108864 := by
  have h1 : input_scale.num = 10263709 := by decide!
  have h2 : input_scale.den = 67108864 := by decide!
  rw [← Rat.num_div_den input_scale, h1, h2]
  norm_num

theorem f32_three : f32 ((3 : ℤ) : ℚ) = 3 := by
  have h1 : (f32 ((3 : ℤ) : ℚ)).num = 3 := by decide!
  have h2 : (f32 ((3 : ℤ) : ℚ)).den = 1 := by decide!
  rw [← Rat.num_div_den (f32 ((3 : ℤ) : ℚ)), h1, h2]
  norm_num

/-- Above the valid domain: an `x` of at least 20 is quantized beyond 127. -/
theorem quantize_input_high (x : ℤ) (hx : 20 ≤ x) :
    133 ≤ quantize input_scale input_zero_point x := by
  have hxq : ((20 : ℕ) : ℚ) ≤ (x : ℚ) := by exact_mod_cast hx
  have ha := f32_ge (x : ℚ) 20 (by norm_num) hxq (lt_of_lt_of_le (by norm_num) hxq)
  have hb : ((130 : ℕ) : ℚ) ≤ f32 (x : ℚ) / input_scale := by
    rw [input_scale_eq, le_div_iff₀ (by norm_num)]
    push_cast at ha ⊢
    linarith
  have hb' := f32_ge _ 130 (by norm_num) hb (lt_of_lt_of_le (by norm_num) hb)
  have hc : ((133 : ℕ) : ℚ) ≤ f32 (f32 (x : ℚ) / input_scale) + f32 (input_zero_point : ℚ) := by
    rw [show input_zero_point = 3 from rfl, f32_three]
    push_cast at hb' ⊢
    linarith
  have hc' := f32_ge _ 133 (by norm_num) hc (lt_of_lt_of_le (by norm_num) hc)
  unfold quantize
  exact round_ge _ 133 (by norm_num) (by exact_mod_cast hc')

/-- Below the valid domain: an `x` of at most -21 is quantized beyond -128. -/
theorem quantize_input_low (x : ℤ) (hx : x ≤ -21) :
    quantize input_scale input_zero_point x ≤ -134 := by
  have hxq : (x : ℚ) ≤ -((21 : ℕ) : ℚ) := by exact_mod_cast hx
  have ha := f32_le (x : ℚ) 21 (by norm_num) hxq (lt_of_le_of_lt hxq (by norm_num))
  have hb : f32 (x : ℚ) / input_scale ≤ -((137 : ℕ) : ℚ) := by
    rw [input_scale_eq, div_le_iff₀ (by norm_num)]
    push_cast at ha ⊢
    linarith
  have hb' := f32_le _ 137 (by norm_num) hb (lt_of_le_of_lt hb (by norm_num))
  have hc : f32 (f32 (x : ℚ) / input_scale) + f32 (input_zero_point : ℚ) ≤ -((134 : ℕ) : ℚ) := by
    rw [show input_zero_point = 3 from rfl, f32_three]
    push_cast at hb' ⊢
    linarith
  have hc' := f32_le _ 134 (by norm_num) hc (lt_of_le_of_lt hc (by norm_num))
  unfold quantize
  exact round_le _ (-134) (by norm_num) (by exact_mod_cast hc')

theorem quantize_input_domain (x : ℤ)
    (hlo : -128 ≤ quantize input_scale input_zero_point x)
    (hhi : quantize input_scale input_zero_point x ≤ 127) : -20 ≤ x ∧ x ≤ 19 := by
  constructor
  · by_contra h
    have := quantize_input_low x (by omega)
    omega
  · by_contra h
    have := quantize_input_high x (by omega)
    omega

theorem dequantize_quantize_input (x : ℤ) (h1 : -20 ≤ x) (h2 : x ≤ 19) :
    dequantize input_scale input_zero_point (quantize input_scale input_zero_point x) = x := by
  interval_cases x <;> decide!

theorem int8_cast_id (r : ℤ) (h1 : -128 ≤ r) (h2 : r ≤ 127) : int8_cast r = r := by
  unfold int8_cast
  omega

/-- The slots 0 to 6 of the input tensor after the `for` loop of main.cpp
118-122 are the int8 conversions of the quantized elements 0 to 6 of
`input_array`; the other cells of the tensor are not touched. -/
theorem quantize_input_spec (arr data : List Int) (ha : 7 ≤ arr.length)
    (hd : 7 ≤ data.length) :
    (quantize_input arr data).take 7
      = (arr.take 7).map (fun x => int8_cast (quantize input_scale input_zero_point x)) ∧
    (quantize_input arr data).drop 7 = data.drop 7 ∧
    (quantize_input arr data).length = data.length := by
  obtain ⟨a1, a2, a3, a4, a5, a6, a7, ra, rfl⟩ := length_ge_seven arr ha
  obtain ⟨d1, d2, d3, d4, d5, d6, d7, rd, rfl⟩ := length_ge_seven data hd
  have hr : List.range 7 = [0, 1, 2, 3, 4, 5, 6] := by decide
  simp [quantize_input, hr]

/-! ## Lemmas on `process_line` -/

theorem infer_array (env : Env σ) (s : State σ) :
    (infer env s).1.array_length = s.array_length ∧
    (infer env s).1.input_array = s.input_array := by
  unfold infer
  simp only [State.print, print_int_array, announce]
  split
  · split <;> exact ⟨rfl, rfl⟩
  · exact ⟨rfl, rfl⟩

theorem process_line_parse (env : Env σ) (s : State σ) :
    (process_line env s).array_length
      = (string_to_array s.in_str_buff s.input_array).num_integers ∧
    (process_line env s).input_array
      = (string_to_array s.in_str_buff s.input_array).int_array := by
  unfold process_line
  simp only [State.print, State.reset_line]
  split
  · exact ⟨rfl, rfl⟩
  · split
    · exact infer_array env _
    · exact infer_array env _

theorem infer_calls_int8 (env : Env σ) (s : State σ)
    (ht : s.input.type = TfLiteType.kTfLiteInt8) :
    (infer env s).1.calls = s.calls ++ [quantize_input s.input_array s.input.data] ∧
    (infer env s).2 = false := by
  unfold infer
  simp only [State.print, print_int_array, announce, ht, if_true]
  split <;> exact ⟨rfl, rfl⟩

/-- What `process_line` does when the count is not 7. -/
theorem process_line_wrong_count (env : Env σ) (s : State σ)
    (h7 : (string_to_array s.in_str_buff s.input_array).num_integers ≠ 7) :
    process_line env s =
      { s with
        in_str_buff := List.replicate INPUT_BUFFER_SIZE 0
        in_buff_idx := 0
        input_array := (string_to_array s.in_str_buff s.input_array).int_array
        array_length := (string_to_array s.in_str_buff s.input_array).num_integers
        serial := s.serial ++
          [ Out.text (lit "About to process line: "), Out.text (c_str s.in_str_buff),
            Out.newline,
            Out.text (lit "Error: Please enter exactly 7 numbers."), Out.newline ] } := by
  unfold process_line
  simp only [State.print, State.reset_line, ne_eq, h7, not_false_eq_true, if_true]
  simp

/-- What `process_line` does when the count is 7 and the input tensor is int8:
one call of `Invoke`, on the quantized vector, and the line buffer is cleared. -/
theorem process_line_int8 (env : Env σ) (s : State σ)
    (h7 : (string_to_array s.in_str_buff s.input_array).num_integers = 7)
    (ht : s.input.type = TfLiteType.kTfLiteInt8) :
    (process_line env s).calls
      = s.calls ++
        [quantize_input (string_to_array s.in_str_buff s.input_array).int_array s.input.data] ∧
    (process_line env s).in_str_buff = List.replicate INPUT_BUFFER_SIZE 0 ∧
    (process_line env s).in_buff_idx = 0 := by
  unfold process_line
  simp only [State.print, h7, ne_eq, not_true_eq_false, if_false]
  have hi := infer_calls_int8 env
    { s with
      in_str_buff :=
        (string_to_array s.in_str_buff s.input_array).passed ++
        (string_to_array s.in_str_buff s.input_array).saved
      input_array := (string_to_array s.in_str_buff s.input_array).int_array
      array_length := 7
      serial := s.serial ++
        [Out.text (lit "About to process line: "), Out.text (c_str s.in_str_buff), Out.newline] }
    ht
  simp only [hi.2]
  exact ⟨hi.1, rfl, rfl⟩

/-- What the `else` branch does when the input tensor is int8. -/
theorem infer_int8 (env : Env σ) (s : State σ) (ht : s.input.type = TfLiteType.kTfLiteInt8) :
    (infer env s).2 = false ∧
    (infer env s).1.calls = s.calls ++ [quantize_input s.input_array s.input.data] ∧
    (infer env s).1.input_array = s.input_array ∧
    (infer env s).1.in_str_buff = s.in_str_buff ∧
    (infer env s).1.in_buff_idx = s.in_buff_idx ∧
    (infer env s).1.input.type = TfLiteType.kTfLiteInt8 ∧
    (infer env s).1.input.data.length = (quantize_input s.input_array s.input.data).length ∧
    ((env.Invoke s.interpreter (quantize_input s.input_array s.input.data) s.output.data).1
        = false →
      ∃ pre, (infer env s).1.serial
        = pre ++ [Out.text (lit "Error running inference."), Out.newline]) ∧
    (infer env s).1.output.type = s.output.type ∧
    (infer env s).1.output.data
      = (env.Invoke s.interpreter (quantize_input s.input_array s.input.data)
          s.output.data).2.2.2 ∧
    ((env.Invoke s.interpreter (quantize_input s.input_array s.input.data) s.output.data).1
        = true →
      ∃ pre post, (infer env s).1.serial
        = pre ++ [Out.text (lit "Model Prediction: "),
            Out.num (prediction (infer env s).1.output), Out.newline] ++ post) := by
  have hta : (announce s).input.type = TfLiteType.kTfLiteInt8 := ht
  unfold infer
  simp only [State.print, hta, if_true]
  split
  · rename_i hf
    refine ⟨rfl, rfl, rfl, rfl, rfl, rfl, env.Invoke_input_size _ _ _, fun _ => ⟨_, rfl⟩,
      rfl, rfl, fun h => ?_⟩
    have hf' : (env.Invoke s.interpreter (quantize_input s.input_array s.input.data)
        s.output.data).1 = false := hf
    rw [hf'] at h; exact absurd h (by decide)
  · rename_i hf
    refine ⟨rfl, rfl, rfl, rfl, rfl, rfl, env.Invoke_input_size _ _ _, fun h => absurd h hf,
      rfl, rfl, fun _ => ⟨(announce s).serial,
        [ Out.text (lit "Printing time = "),
          Out.num (some (ulong_sub (env.micros (s.ticks + 1)) (env.micros s.ticks))),
          Out.text (lit " " ++ [194, 181] ++ lit "s. Inference time = "),
          Out.num (some (ulong_sub (env.micros (announce s).ticks) (env.micros (s.ticks + 1)))),
          Out.text (lit " " ++ [194, 181] ++ lit "s."), Out.newline ], ?_⟩⟩
    simp

/-- What `process_line` does on a line of exactly 7 tokens when the input
tensor is int8 and has at least 7 cells. -/
theorem process_valid_line (env : Env σ) (s : State σ)
    (ha : s.input_array.length = INT_ARRAY_SIZE)
    (ht : s.input.type = TfLiteType.kTfLiteInt8) (hd : 7 ≤ s.input.data.length)
    (h7 : (tokens s.in_str_buff).length = 7) :
    (process_line env s).array_length = 7 ∧
    (process_line env s).input_array.take 7 = (tokens s.in_str_buff).map atoi ∧
    (process_line env s).input_array.length = INT_ARRAY_SIZE ∧
    (process_line env s).calls
      = s.calls ++ [quantize_input (process_line env s).input_array s.input.data] ∧
    (quantize_input (process_line env s).input_array s.input.data).take 7
      = ((tokens s.in_str_buff).map atoi).map
          (fun x => int8_cast (quantize input_scale input_zero_point x)) ∧
    (process_line env s).in_str_buff = List.replicate INPUT_BUFFER_SIZE 0 ∧
    (process_line env s).in_buff_idx = 0 ∧
    (process_line env s).input.type = TfLiteType.kTfLiteInt8 ∧
    (process_line env s).input.data.length = s.input.data.length ∧
    ((env.Invoke s.interpreter
          (quantize_input (process_line env s).input_array s.input.data) s.output.data).1 = false →
      ∃ pre, (process_line env s).serial
        = pre ++ [Out.text (lit "Error running inference."), Out.newline]) ∧
    (process_line env s).output.type = s.output.type ∧
    (process_line env s).output.data
      = (env.Invoke s.interpreter
          (quantize_input (process_line env s).input_array s.input.data) s.output.data).2.2.2 ∧
    ((env.Invoke s.interpreter
          (quantize_input (process_line env s).input_array s.input.data) s.output.data).1 = true →
      ∃ pre post, (process_line env s).serial
        = pre ++ [Out.text (lit "Model Prediction: "),
            Out.num (prediction (process_line env s).output), Out.newline] ++ post) := by
  obtain ⟨p1, p2, -⟩ := string_to_array_spec s.in_str_buff s.input_array ha
  rw [h7] at p1 p2
  have hnum : (string_to_array s.in_str_buff s.input_array).num_integers = 7 := by
    rw [p1]; rfl
  have harr : (process_line env s).input_array
      = (string_to_array s.in_str_buff s.input_array).int_array :=
    (process_line_parse env s).2
  have htake : (string_to_array s.in_str_buff s.input_array).int_array.take 7
      = (tokens s.in_str_buff).map atoi := by
    rw [p2, List.take_of_length_le (show _ ≤ INT_ARRAY_SIZE by rw [h7]; decide)]
    simp [h7]
  have hlen : (string_to_array s.in_str_buff s.input_array).int_array.length
      = INT_ARRAY_SIZE := by
    rw [p2, List.take_of_length_le (show _ ≤ INT_ARRAY_SIZE by rw [h7]; decide)]
    simp only [INT_ARRAY_SIZE] at ha ⊢
    simp [h7, ha]
  have hq := quantize_input_spec (string_to_array s.in_str_buff s.input_array).int_array
    s.input.data (by rw [hlen]; decide) hd
  rw [harr]
  have hi := infer_int8 env
    { s with
      in_str_buff :=
        (string_to_array s.in_str_buff s.input_array).passed ++
        (string_to_array s.in_str_buff s.input_array).saved
      input_array := (string_to_array s.in_str_buff s.input_array).int_array
      array_length := (string_to_array s.in_str_buff s.input_array).num_integers
      serial := s.serial ++
        [Out.text (lit "About to process line: "), Out.text (c_str s.in_str_buff), Out.newline] }
    ht
  have hpl : process_line env s = (infer env
    { s with
      in_str_buff :=
        (string_to_array s.in_str_buff s.input_array).passed ++
        (string_to_array s.in_str_buff s.input_array).saved
      input_array := (string_to_array s.in_str_buff s.input_array).int_array
      array_length := (string_to_array s.in_str_buff s.input_array).num_integers
      serial := s.serial ++
        [Out.text (lit "About to process line: "), Out.text (c_str s.in_str_buff),
          Out.newline] }).1.reset_line := by
    unfold process_line
    simp only [State.print, hnum, ne_eq, not_true_eq_false, if_false]
    rw [hnum] at hi
    simp only [hi.1]
    simp
  obtain ⟨-, i2, i3, -, -, i6, i7, i8, i9, i10, i11⟩ := hi
  refine ⟨?_, htake, hlen, ?_, ?_, ?_, ?_, ?_, ?_, ?_, ?_, ?_, ?_⟩
  · rw [(process_line_parse env s).1, hnum]
  · rw [hpl]; exact i2
  · rw [hq.1, htake]
  · rw [hpl]; rfl
  · rw [hpl]; rfl
  · rw [hpl]; exact i6
  · rw [hpl]
    show (infer env _).1.input.data.length = _
    rw [i7]; exact hq.2.2
  · intro hf
    obtain ⟨pre, hp⟩ := i8 hf
    exact ⟨pre, by rw [hpl]; exact hp⟩
  · rw [hpl]; exact i9
  · rw [hpl]; exact i10
  · intro hf
    obtain ⟨pre, post, hp⟩ := i11 hf
    exact ⟨pre, post, by rw [hpl]; exact hp⟩

/-- The passes that receive a line of exactly 7 tokens and its terminator, from
an empty line buffer, with an int8 input tensor of at least 7 cells. -/
theorem run_valid_line (env : Env σ) (s : State σ) (line : List Nat)
    (hi : s.in_buff_idx = 0) (hb : s.in_str_buff.length = INPUT_BUFFER_SIZE)
    (ha : s.input_array.length = INT_ARRAY_SIZE)
    (ht : s.input.type = TfLiteType.kTfLiteInt8) (hd : 7 ≤ s.input.data.length)
    (h13 : 13 ∉ line) (hl : line.length ≤ 62)
    (hv : (tokens (line ++ [13, 0])).length = 7) :
    (run env s (line ++ [13])).array_length = 7 ∧
    (run env s (line ++ [13])).input_array.take 7 = (tokens (line ++ [13, 0])).map atoi ∧
    (run env s (line ++ [13])).input_array.length = INT_ARRAY_SIZE ∧
    (run env s (line ++ [13])).calls
      = s.calls ++ [quantize_input (run env s (line ++ [13])).input_array s.input.data] ∧
    (quantize_input (run env s (line ++ [13])).input_array s.input.data).take 7
      = ((tokens (line ++ [13, 0])).map atoi).map
          (fun x => int8_cast (quantize input_scale input_zero_point x)) ∧
    (run env s (line ++ [13])).in_str_buff = List.replicate INPUT_BUFFER_SIZE 0 ∧
    (run env s (line ++ [13])).in_buff_idx = 0 ∧
    (run env s (line ++ [13])).input.type = TfLiteType.kTfLiteInt8 ∧
    (run env s (line ++ [13])).input.data.length = s.input.data.length ∧
    ((env.Invoke s.interpreter
          (quantize_input (run env s (line ++ [13])).input_array s.input.data)
          s.output.data).1 = false →
      ∃ pre, (run env s (line ++ [13])).serial
        = pre ++ [Out.text (lit "Error running inference."), Out.newline]) ∧
    (run env s (line ++ [13])).output.type = s.output.type ∧
    (run env s (line ++ [13])).output.data
      = (env.Invoke s.interpreter
          (quantize_input (run env s (line ++ [13])).input_array s.input.data)
          s.output.data).2.2.2 ∧
    ((env.Invoke s.interpreter
          (quantize_input (run env s (line ++ [13])).input_array s.input.data)
          s.output.data).1 = true →
      ∃ pre post, (run env s (line ++ [13])).serial
        = pre ++ [Out.text (lit "Model Prediction: "),
            Out.num (prediction (run env s (line ++ [13])).output), Out.newline] ++ post) := by
  have htok : tokens (line ++ 13 :: 0 :: s.in_str_buff.drop (line.length + 2))
      = tokens (line ++ [13, 0]) := by
    have e1 : line ++ 13 :: 0 :: s.in_str_buff.drop (line.length + 2)
        = (line ++ [13]) ++ 0 :: s.in_str_buff.drop (line.length + 2) := by simp
    have e2 : line ++ [13, 0] = (line ++ [13]) ++ [0] := by simp
    rw [e1, e2, tokens_nul_rest]
  rw [run_line env s line h13 hi hb hl]
  have h := process_valid_line env
    { s with
      in_str_buff := line ++ 13 :: 0 :: s.in_str_buff.drop (line.length + 2)
      in_buff_idx := line.length + 1
      serial := s.serial ++ line.map Out.char ++ [Out.char 13]
      stores := s.stores ++ List.range (line.length + 2) }
    ha ht hd (by rw [htok]; exact hv)
  simp only [htok] at h
  exact h

/-! ## Lemmas on the report, the sum and the tokens of a received line -/

theorem wrap_int_id (x : Int) (h : -2147483648 ≤ x ∧ x ≤ 2147483647) : wrap_int x = x := by
  unfold wrap_int
  omega

theorem sum_array_succ (arr : List Int) (n : Nat) :
    sum_array arr (n + 1) = wrap_int (sum_array arr n + arr.getD n 0) := by
  unfold sum_array
  rw [List.range_succ, List.foldl_append]
  rfl

theorem sum_take_succ (arr : List Int) (n : Nat) (hn : n < arr.length) :
    (arr.take (n + 1)).sum = (arr.take n).sum + arr.getD n 0 := by
  rw [List.take_succ, List.sum_append, List.getD_eq_getElem?_getD,
    List.getElem?_eq_getElem hn]
  simp

theorem sum_array_eq (arr : List Int) : ∀ n : Nat, n ≤ arr.length →
    (∀ k ≤ n, -2147483648 ≤ (arr.take k).sum ∧ (arr.take k).sum ≤ 2147483647) →
    sum_array arr n = (arr.take n).sum := by
  intro n
  induction n with
  | zero => intro _ _; simp [sum_array]
  | succ k ih =>
    intro hn hr
    rw [sum_array_succ, ih (by omega) (fun j hj => hr j (by omega)),
      ← sum_take_succ arr k (by omega)]
    exact wrap_int_id _ (hr (k + 1) (le_refl _))

theorem quantize_input_in_range (x : ℤ) (h1 : -20 ≤ x) (h2 : x ≤ 19) :
    -128 ≤ quantize input_scale input_zero_point x ∧
    quantize input_scale input_zero_point x ≤ 127 := by
  interval_cases x <;> decide!

theorem int8_cast_range (r : ℤ) : -128 ≤ int8_cast r ∧ int8_cast r ≤ 127 := by
  unfold int8_cast
  omega

theorem dequantize_output_eq (q : ℤ) (h1 : -128 ≤ q) (h2 : q ≤ 127) :
    dequantize output_scale output_zero_point q = prediction_value q := by
  interval_cases q <;> decide!

theorem round_nearest (v : ℚ) : |((round v : ℤ) : ℚ) - v| ≤ 1 / 2 := by
  unfold round
  rw [abs_le]
  split
  · have h1 := Int.floor_le (v + 1 / 2)
    have h2 := Int.lt_floor_add_one (v + 1 / 2)
    constructor <;> linarith
  · have h1 := Int.le_ceil (v - 1 / 2)
    have h2 := Int.ceil_lt_add_one (v - 1 / 2)
    constructor <;> linarith

theorem atoi_malformed (t : List Nat) (h : malformed t) : atoi t = 0 := by
  unfold malformed after_sign at h
  unfold atoi
  cases hd : t.dropWhile isspace with
  | nil => rfl
  | cons c r =>
    rw [hd] at h
    simp only at h ⊢
    by_cases h45 : c = 45
    · rw [if_pos (Or.inl h45)] at h
      rw [if_pos h45, atoi_digits_stop r h]; rfl
    · by_cases h43 : c = 43
      · rw [if_pos (Or.inr h43)] at h
        rw [if_neg h45, if_pos h43, atoi_digits_stop r h]
      · rw [if_neg (by tauto)] at h
        rw [if_neg h45, if_neg h43, atoi_digits_stop _ h]

theorem quantize_zero : int8_cast (quantize input_scale input_zero_point 0) = 3 := by decide!

theorem tokens_from_split (cs : List Nat) (h0 : 0 ∉ cs) : ∀ (cur r : List Nat),
    tokens_from (cs ++ 0 :: r) cur
      = ((cs.splitOnP (fun c => c == 44)).modifyHead (fun t => cur ++ t)).filter
          (fun t => !t.isEmpty) := by
  induction cs with
  | nil =>
    intro cur r
    cases cur <;> simp [tokens_from, List.splitOnP_nil]
  | cons c cs ih =>
    intro cur r
    have hc0 : c ≠ 0 := fun h => h0 (by simp [h])
    have hcs : 0 ∉ cs := fun h => h0 (by simp [h])
    rw [List.cons_append, tokens_from, if_neg hc0, List.splitOnP_cons]
    by_cases h44 : c = 44
    · subst h44
      simp only [if_true, beq_self_eq_true, List.modifyHead_cons, List.append_nil]
      have hrec := ih hcs [] r
      simp only [List.nil_append] at hrec
      have hid : (List.splitOnP (fun c => c == 44) cs).modifyHead (fun t => t)
          = List.splitOnP (fun c => c == 44) cs := by
        cases List.splitOnP (fun c => c == 44) cs <;> rfl
      rw [hid] at hrec
      cases cur with
      | nil => simp [hrec]
      | cons a b => simp [hrec]
    · have hb : (c == 44) = false := by simpa using h44
      simp only [if_neg h44, hb, Bool.false_eq_true, if_false]
      rw [ih hcs, List.modifyHead_modifyHead]
      congr 2
      funext t
      simp

/-- The tokens of a C string are the non-empty pieces of its split at the
commas. -/
theorem tokens_eq_splitOn (cs r : List Nat) (h0 : 0 ∉ cs) :
    tokens (cs ++ 0 :: r) = (cs.splitOn 44).filter (fun t => !t.isEmpty) := by
  unfold tokens
  rw [tokens_from_split cs h0 [] r]
  have hid : (List.splitOnP (fun c => c == 44) cs).modifyHead (fun t => [] ++ t)
      = List.splitOnP (fun c => c == 44) cs := by
    cases List.splitOnP (fun c => c == 44) cs <;> rfl
  rw [hid]
  rfl

theorem tokens_all_commas (cs r : List Nat) (h : ∀ c ∈ cs, c = 44) :
    tokens (cs ++ 0 :: r) = [] := by
  unfold tokens
  induction cs with
  | nil => simp [tokens_from]
  | cons c cs ih =>
    have hc : c = 44 := h c (by simp)
    subst hc
    rw [List.cons_append, tokens_from, if_neg (by decide), if_pos rfl, if_pos rfl]
    exact ih (fun c hc => h c (by simp [hc]))

/-- Everything `process_line` sends to the serial port, in order. -/
theorem process_line_serial (env : Env σ) (s : State σ) :
    (process_line env s).serial =
      s.serial ++
        [Out.text (lit "About to process line: "), Out.text (c_str s.in_str_buff), Out.newline] ++
        (if (string_to_array s.in_str_buff s.input_array).num_integers ≠ 7 then
          [Out.text (lit "Error: Please enter exactly 7 numbers."), Out.newline]
        else
          [ Out.text (lit "Read in "
              ++ fmt_int (string_to_array s.in_str_buff s.input_array).num_integers
              ++ lit " integers: "),
            Out.text (print_int_array_text (string_to_array s.in_str_buff s.input_array).int_array
              (string_to_array s.in_str_buff s.input_array).num_integers),
            Out.text (lit "Sums to "
              ++ fmt_int (sum_array (string_to_array s.in_str_buff s.input_array).int_array
                  (string_to_array s.in_str_buff s.input_array).num_integers)
              ++ lit "\r\n"),
            Out.text (lit "Processing input..."), Out.newline ] ++
          (if s.input.type = TfLiteType.kTfLiteInt8 then
            (if (env.Invoke s.interpreter
                  (quantize_input (string_to_array s.in_str_buff s.input_array).int_array
                    s.input.data) s.output.data).1 = false then
              [Out.text (lit "Error running inference."), Out.newline]
            else
              [ Out.text (lit "Model Prediction: "),
                Out.num (prediction (process_line env s).output), Out.newline,
                Out.text (lit "Printing time = "),
                Out.num (some (ulong_sub (env.micros (s.ticks + 1)) (env.micros s.ticks))),
                Out.text (lit " " ++ [194, 181] ++ lit "s. Inference time = "),
                Out.num (some (ulong_sub (env.micros (s.ticks + 2)) (env.micros (s.ticks + 1)))),
                Out.text (lit " " ++ [194, 181] ++ lit "s."), Out.newline ])
          else [Out.text (lit "Unsupported input type!"), Out.newline])) := by
  unfold process_line infer announce
  simp only [State.print, State.reset_line, print_int_array]
  split_ifs <;> simp

theorem process_line_serial_prefix (env : Env σ) (s : State σ) :
    ∃ post, (process_line env s).serial =
      s.serial ++
        [Out.text (lit "About to process line: "), Out.text (c_str s.in_str_buff), Out.newline] ++
        post :=
  ⟨_, process_line_serial env s⟩

theorem c_str_append_nul (l r : List Nat) : c_str (l ++ 0 :: r) = c_str l := by
  unfold c_str
  induction l with
  | nil => simp
  | cons c l ih =>
    by_cases hc : c = 0
    · subst hc; simp
    · simp [List.takeWhile_cons, hc, ih]

theorem c_str_no_nul (l : List Nat) (h0 : 0 ∉ l) : c_str l = l := by
  unfold c_str
  rw [List.takeWhile_eq_self_iff]
  intro c hc
  have : c ≠ 0 := fun h => h0 (h ▸ hc)
  simpa using this

theorem tokens_from_scan (cs : List Nat) (h0 : 0 ∉ cs) : ∀ (cur rest : List Nat),
    tokens_from (cs ++ rest) cur = (scan cs cur).1 ++ tokens_from rest (scan cs cur).2 := by
  induction cs with
  | nil => intro cur rest; simp [scan]
  | cons c cs ih =>
    intro cur rest
    have hc0 : c ≠ 0 := fun h => h0 (by simp [h])
    have hcs : 0 ∉ cs := fun h => h0 (by simp [h])
    rw [List.cons_append, tokens_from, if_neg hc0, scan]
    by_cases h44 : c = 44
    · simp only [if_pos h44]
      by_cases hcur : cur = []
      · simp only [if_pos hcur]; exact ih hcs _ _
      · simp only [if_neg hcur, List.cons_append]
        rw [ih hcs]
    · simp only [if_neg h44]; exact ih hcs _ _

theorem scan_open_concat (cs : List Nat) : ∀ (cur : List Nat) (c : Nat),
    (scan (cs ++ [c]) cur).2 = if c = 44 then [] else (scan cs cur).2 ++ [c] := by
  induction cs with
  | nil =>
    intro cur c
    simp only [List.nil_append, scan]
    by_cases h44 : c = 44
    · by_cases hcur : cur = [] <;> simp [h44, hcur]
    · simp [h44]
  | cons d cs ih =>
    intro cur c
    simp only [List.cons_append, scan]
    by_cases hd : d = 44
    · by_cases hcur : cur = [] <;> simp [hd, hcur, ih]
    · simp [hd, ih]

theorem atoi_digits_append_cr (r : List Nat) : ∀ acc : Int,
    atoi_digits (r ++ [13]) acc = atoi_digits r acc := by
  induction r with
  | nil => intro acc; simp [atoi_digits, isdigit]
  | cons c r ih =>
    intro acc
    simp only [List.cons_append, atoi_digits]
    split
    · exact ih _
    · rfl

/-- A carriage return after a token does not change the value `atoi` gives. -/
theorem atoi_append_cr (t : List Nat) : atoi (t ++ [13]) = atoi t := by
  unfold atoi
  induction t with
  | nil => simp [isspace, List.dropWhile]
  | cons c t ih =>
    by_cases hs : isspace c = true
    · rw [List.cons_append, List.dropWhile_cons_of_pos hs, List.dropWhile_cons_of_pos hs]
      exact ih
    · rw [List.cons_append, List.dropWhile_cons_of_neg hs, List.dropWhile_cons_of_neg hs]
      simp only
      split
      · rw [atoi_digits_append_cr]
      · split
        · rw [atoi_digits_append_cr]
        · rw [← List.cons_append, atoi_digits_append_cr]

/-- The tokens of a line with its terminator, against those of the line
alone. -/
theorem tokens_with_cr (cs : List Nat) (h0 : 0 ∉ cs) :
    tokens (cs ++ [13, 0]) = (scan cs []).1 ++ [(scan cs []).2 ++ [13]] ∧
    tokens (cs ++ [0])
      = (scan cs []).1 ++ (if (scan cs []).2 = [] then [] else [(scan cs []).2]) := by
  unfold tokens
  rw [tokens_from_scan cs h0, tokens_from_scan cs h0]
  constructor
  · simp [tokens_from]
  · simp [tokens_from]

theorem scan_open_nil_iff (cs : List Nat) :
    (scan cs []).2 = [] ↔ (cs = [] ∨ cs.getLast? = some 44) := by
  rcases List.eq_nil_or_concat cs with rfl | ⟨init, c, rfl⟩
  · simp [scan]
  · rw [List.concat_eq_append, scan_open_concat]
    by_cases h44 : c = 44 <;> simp [h44]

/-- C1 (as amended): a line made of the decimal renderings of seven integers,
each representable as an `int`, joined by commas and at most 62 characters long
(so that the line, its terminator and the NUL fit `in_str_buff`), received from
an empty line buffer and completed by the terminator, makes `string_to_array`
return 7 and leaves exactly those integers, in order, in `input_array[0..6]`. -/
theorem string_to_array_seven_numbers (env : Env σ) (s : State σ) (xs : List Int)
    (hx : xs.length = 7) (_hr : ∀ x ∈ xs, representable_int x)
    (hl : (csv_line xs).length ≤ 62)
    (hi : s.in_buff_idx = 0) (hb : s.in_str_buff.length = INPUT_BUFFER_SIZE)
    (ha : s.input_array.length = INT_ARRAY_SIZE) :
    (string_to_array
        (csv_line xs ++ 13 :: 0 :: s.in_str_buff.drop ((csv_line xs).length + 2))
        s.input_array).num_integers = 7 ∧
    (run env s (csv_line xs ++ [13])).array_length = 7 ∧
    (run env s (csv_line xs ++ [13])).input_array.take 7 = xs := by
  obtain ⟨x1, x2, x3, x4, x5, x6, x7, rfl⟩ := length_seven xs hx
  have h13 := csv_line_seven_no_cr x1 x2 x3 x4 x5 x6 x7
  obtain ⟨ht, hn⟩ := tokens_csv_line_seven x1 x2 x3 x4 x5 x6 x7
    (s.in_str_buff.drop ((csv_line [x1, x2, x3, x4, x5, x6, x7]).length + 2))
  obtain ⟨p1, p2, -⟩ := string_to_array_spec
    (csv_line [x1, x2, x3, x4, x5, x6, x7] ++ 13 :: 0 ::
      s.in_str_buff.drop ((csv_line [x1, x2, x3, x4, x5, x6, x7]).length + 2))
    s.input_array ha
  rw [hn] at p1 p2
  have hnum : (string_to_array
      (csv_line [x1, x2, x3, x4, x5, x6, x7] ++ 13 :: 0 ::
        s.in_str_buff.drop ((csv_line [x1, x2, x3, x4, x5, x6, x7]).length + 2))
      s.input_array).num_integers = 7 := by rw [p1]; rfl
  refine ⟨hnum, ?_, ?_⟩
  · rw [run_line env s _ h13 hi hb hl, (process_line_parse env _).1]
    exact hnum
  · rw [run_line env s _ h13 hi hb hl, (process_line_parse env _).2]
    simp only []
    rw [p2, List.take_of_length_le (show _ ≤ INT_ARRAY_SIZE by rw [hn]; decide), ht]
    simp

/-- C1 on the line `"3,7,12,5,10,1,4"`, received after `setup()`: it is parsed
to `[3,7,12,5,10,1,4]`. -/
theorem string_to_array_seven_numbers_witness :
    csv_line [3, 7, 12, 5, 10, 1, 4] = lit "3,7,12,5,10,1,4" ∧
    (run (env_const true) (fresh TfLiteType.kTfLiteInt8 TfLiteType.kTfLiteInt8)
        (csv_line [3, 7, 12, 5, 10, 1, 4] ++ [13])).array_length = 7 ∧
    (run (env_const true) (fresh TfLiteType.kTfLiteInt8 TfLiteType.kTfLiteInt8)
        (csv_line [3, 7, 12, 5, 10, 1, 4] ++ [13])).input_array.take 7
      = [3, 7, 12, 5, 10, 1, 4] :=
  ⟨by decide,
    (string_to_array_seven_numbers (env_const true)
      (fresh TfLiteType.kTfLiteInt8 TfLiteType.kTfLiteInt8) [3, 7, 12, 5, 10, 1, 4]
      (by decide) (by simp [representable_int]) (by decide) rfl (by decide) (by decide)).2⟩

/-- The long line of the counter-example to C1 as first stated: seven integers
that each fit an `int` but whose line has 76 characters; the line buffer is
reset on the 64th, and what is parsed is the rest of the line, two tokens. -/
theorem seven_numbers_long_line_not_parsed :
    (List.replicate 7 (1000000000 : Int)).length = 7 ∧
    (∀ x ∈ List.replicate 7 (1000000000 : Int), representable_int x) ∧
    (run (env_const true) (fresh TfLiteType.kTfLiteInt8 TfLiteType.kTfLiteInt8)
        (csv_line (List.replicate 7 1000000000) ++ [13])).array_length = 2 ∧
    (run (env_const true) (fresh TfLiteType.kTfLiteInt8 TfLiteType.kTfLiteInt8)
        (csv_line (List.replicate 7 1000000000) ++ [13])).input_array
      = [0, 1000000000, 0, 0, 0, 0, 0, 0] := by
  refine ⟨by decide, by simp [representable_int], by decide!, by decide!⟩

/-! ## C2: inference exactly when seven tokens were read -/

/-- C2: in the pass that receives the terminator, `array_length` is what
`string_to_array` returns for the line buffer; when it is 7 and the input
tensor is int8, `Invoke` is called exactly once (on the quantized vector); when
it is not 7, `Invoke` is not called, the input tensor is unchanged and the
error message is what the pass prints after the echo of the line.  The line
`"1,2,3"` causes no call of `Invoke`. -/
theorem invoke_iff_seven_tokens (env : Env σ) (s : State σ) :
    (loop env s (some 13)).array_length
      = (string_to_array ((s.in_str_buff.set s.in_buff_idx 13).set (s.in_buff_idx + 1) 0)
          s.input_array).num_integers ∧
    ((loop env s (some 13)).array_length = 7 → s.input.type = TfLiteType.kTfLiteInt8 →
      (loop env s (some 13)).calls
        = s.calls ++ [quantize_input (loop env s (some 13)).input_array s.input.data]) ∧
    ((loop env s (some 13)).array_length ≠ 7 →
      (loop env s (some 13)).calls = s.calls ∧
      (loop env s (some 13)).input = s.input ∧
      (loop env s (some 13)).serial
        = s.serial ++
          [ Out.char 13, Out.text (lit "About to process line: "),
            Out.text (c_str ((s.in_str_buff.set s.in_buff_idx 13).set (s.in_buff_idx + 1) 0)),
            Out.newline,
            Out.text (lit "Error: Please enter exactly 7 numbers."), Out.newline ]) ∧
    (run (env_const true) (fresh TfLiteType.kTfLiteInt8 TfLiteType.kTfLiteInt8)
      (lit "1,2,3" ++ [13])).calls = [] := by
  have hlen := (process_line_parse env
    { s with
      in_str_buff := (s.in_str_buff.set s.in_buff_idx 13).set (s.in_buff_idx + 1) 0
      in_buff_idx := s.in_buff_idx + 1
      serial := s.serial ++ [Out.char 13]
      stores := s.stores ++ [s.in_buff_idx, s.in_buff_idx + 1] })
  rw [← loop_cr] at hlen
  refine ⟨hlen.1, ?_, ?_, by decide⟩
  · intro h7 ht
    rw [hlen.2]
    rw [hlen.1] at h7
    rw [loop_cr]
    exact (process_line_int8 env _ h7 ht).1
  · intro h7
    rw [hlen.1] at h7
    rw [loop_cr, process_line_wrong_count env _ h7]
    simp

/-- C2 on the line `"3,7,12,5,10,1,4"`: the pass that receives the terminator
finds 7 tokens and calls `Invoke` once, on `[23,49,81,36,68,10,29]`. -/
theorem invoke_iff_seven_tokens_witness :
    (loop (env_const true)
        (run (env_const true) (fresh TfLiteType.kTfLiteInt8 TfLiteType.kTfLiteInt8)
          (lit "3,7,12,5,10,1,4")) (some 13)).array_length = 7 ∧
    (loop (env_const true)
        (run (env_const true) (fresh TfLiteType.kTfLiteInt8 TfLiteType.kTfLiteInt8)
          (lit "3,7,12,5,10,1,4")) (some 13)).calls
      = (run (env_const true) (fresh TfLiteType.kTfLiteInt8 TfLiteType.kTfLiteInt8)
          (lit "3,7,12,5,10,1,4")).calls ++
        [quantize_input
          (loop (env_const true)
            (run (env_const true) (fresh TfLiteType.kTfLiteInt8 TfLiteType.kTfLiteInt8)
              (lit "3,7,12,5,10,1,4")) (some 13)).input_array
          (run (env_const true) (fresh TfLiteType.kTfLiteInt8 TfLiteType.kTfLiteInt8)
            (lit "3,7,12,5,10,1,4")).input.data] ∧
    (loop (env_const true)
        (run (env_const true) (fresh TfLiteType.kTfLiteInt8 TfLiteType.kTfLiteInt8)
          (lit "3,7,12,5,10,1,4")) (some 13)).calls = [[23, 49, 81, 36, 68, 10, 29]] :=
  ⟨by decide!,
    (invoke_iff_seven_tokens (env_const true)
      (run (env_const true) (fresh TfLiteType.kTfLiteInt8 TfLiteType.kTfLiteInt8)
        (lit "3,7,12,5,10,1,4"))).2.1 (by decide!) (by decide!),
    by decide!⟩

/-! ## C3: quantize then dequantize -/

/-- C3: for every integer `x` of the valid domain of the model, those whose
quantized value `round(x / input_scale + input_zero_point)` lies in
`[-128, 127]`, dequantizing the quantized value with the same scale and zero
point gives a value within one quantization step of `x` (it gives `x`). -/
theorem dequantize_quantize_within_step (x : ℤ)
    (hlo : -128 ≤ quantize input_scale input_zero_point x)
    (hhi : quantize input_scale input_zero_point x ≤ 127) :
    |((dequantize input_scale input_zero_point
          (quantize input_scale input_zero_point x) : ℤ) : ℚ) - (x : ℚ)| ≤ input_scale ∧
    dequantize input_scale input_zero_point (quantize input_scale input_zero_point x) = x := by
  obtain ⟨h1, h2⟩ := quantize_input_domain x hlo hhi
  have h := dequantize_quantize_input x h1 h2
  refine ⟨?_, h⟩
  rw [h, sub_self, abs_zero, input_scale_eq]
  norm_num

/-- C3 at `x = 12`, which is quantized to 81. -/
theorem dequantize_quantize_within_step_witness :
    quantize input_scale input_zero_point 12 = 81 ∧
    |((dequantize input_scale input_zero_point
          (quantize input_scale input_zero_point 12) : ℤ) : ℚ) - ((12 : ℤ) : ℚ)|
      ≤ input_scale :=
  ⟨by decide!, (dequantize_quantize_within_step 12 (by decide!) (by decide!)).1⟩

/-! ## C4: at most eight tokens -/

/-- C4: `string_to_array` returns at most `INT_ARRAY_SIZE` and stores only at
indices of `int_array` up to 7; on a line of more than 8 tokens it returns
exactly 8 and the array holds the values of the first 8 tokens; the pass of
`loop` that completes such a line sets `array_length` to 8 and does not call
`Invoke`.  The line `"1,2,3,4,5,6,7,8,9"` is such a line. -/
theorem string_to_array_at_most_eight (env : Env σ) (s : State σ) (mem : List Nat)
    (a : List Int) (ha : a.length = INT_ARRAY_SIZE)
    (hs : s.input_array.length = INT_ARRAY_SIZE) :
    (string_to_array mem a).num_integers ≤ INT_ARRAY_SIZE ∧
    (∀ i ∈ (string_to_array mem a).writes, i ≤ 7) ∧
    (8 < (tokens mem).length →
      (string_to_array mem a).num_integers = 8 ∧
      (string_to_array mem a).int_array = ((tokens mem).take 8).map atoi) ∧
    (8 < (tokens ((s.in_str_buff.set s.in_buff_idx 13).set (s.in_buff_idx + 1) 0)).length →
      (loop env s (some 13)).array_length = 8 ∧
      (loop env s (some 13)).calls = s.calls) ∧
    ((run (env_const true) (fresh TfLiteType.kTfLiteInt8 TfLiteType.kTfLiteInt8)
        (lit "1,2,3,4,5,6,7,8,9" ++ [13])).input_array = [1, 2, 3, 4, 5, 6, 7, 8] ∧
      (run (env_const true) (fresh TfLiteType.kTfLiteInt8 TfLiteType.kTfLiteInt8)
        (lit "1,2,3,4,5,6,7,8,9" ++ [13])).array_length = 8 ∧
      (run (env_const true) (fresh TfLiteType.kTfLiteInt8 TfLiteType.kTfLiteInt8)
        (lit "1,2,3,4,5,6,7,8,9" ++ [13])).calls = []) := by
  obtain ⟨h1, h2, h3⟩ := string_to_array_spec mem a ha
  refine ⟨?_, ?_, ?_, ?_, by decide, by decide, by decide⟩
  · rw [h1]; exact min_le_left _ _
  · intro i hi
    rw [h3, List.mem_range] at hi
    have : min INT_ARRAY_SIZE (tokens mem).length ≤ 8 := min_le_left _ _
    omega
  · intro h8
    have hmin : min INT_ARRAY_SIZE (tokens mem).length = 8 := by
      simp only [INT_ARRAY_SIZE]; omega
    rw [h1, h2, hmin]
    refine ⟨rfl, ?_⟩
    rw [List.drop_eq_nil_of_le (by simp only [INT_ARRAY_SIZE] at ha; omega)]
    simp
  · intro h8
    obtain ⟨p1, -, -⟩ := string_to_array_spec
      ((s.in_str_buff.set s.in_buff_idx 13).set (s.in_buff_idx + 1) 0) s.input_array hs
    have hmin : min INT_ARRAY_SIZE
        (tokens ((s.in_str_buff.set s.in_buff_idx 13).set (s.in_buff_idx + 1) 0)).length = 8 := by
      simp only [INT_ARRAY_SIZE]; omega
    rw [hmin] at p1
    rw [loop_cr, process_line_wrong_count env _ (by simp only []; rw [p1]; decide)]
    exact ⟨p1, rfl⟩

/-- C4 on a state whose line buffer holds `"1,2,3,4,5,6,7,8,9"`: nine tokens,
so the pass that receives the terminator counts 8 and makes no call. -/
theorem string_to_array_at_most_eight_witness :
    8 < (tokens (lit "1,2,3,4,5,6,7,8,9" ++ [0])).length ∧
    (string_to_array (lit "1,2,3,4,5,6,7,8,9" ++ [0]) (List.replicate 8 0)).num_integers = 8 ∧
    (string_to_array (lit "1,2,3,4,5,6,7,8,9" ++ [0]) (List.replicate 8 0)).int_array
      = ((tokens (lit "1,2,3,4,5,6,7,8,9" ++ [0])).take 8).map atoi :=
  ⟨by decide,
    ((string_to_array_at_most_eight (env_const true)
      (fresh TfLiteType.kTfLiteInt8 TfLiteType.kTfLiteInt8)
      (lit "1,2,3,4,5,6,7,8,9" ++ [0]) (List.replicate 8 0) (by decide) (by decide)).2.2.1
      (by decide))⟩

/-! ## C5: stores into the line buffer -/

/-- C5 fails on the code: after 63 characters the terminator is stored at index
63 and the NUL that follows it at index 64, which is `INPUT_BUFFER_SIZE`. -/
theorem line_of_63_chars_stores_past_end :
    (run (env_const true) (fresh TfLiteType.kTfLiteInt8 TfLiteType.kTfLiteInt8)
        (List.replicate 63 97 ++ [13])).stores = List.range 65 ∧
    ¬ (∀ i ∈ (run (env_const true) (fresh TfLiteType.kTfLiteInt8 TfLiteType.kTfLiteInt8)
        (List.replicate 63 97 ++ [13])).stores, i < INPUT_BUFFER_SIZE) := by
  have h : (run (env_const true) (fresh TfLiteType.kTfLiteInt8 TfLiteType.kTfLiteInt8)
      (List.replicate 63 97 ++ [13])).stores = List.range 65 := by decide!
  refine ⟨h, ?_⟩
  rw [h]
  intro hall
  have := hall 64 (by simp)
  simp at this

/-! ## C6: the line buffer after a completed line -/

/-- C6 fails on the code when the input tensor is not int8: the pass that
completes the line `"1,2,3,4,5,6,7"` leaves `loop` through the `return` of
line 125, with the cursor at 14 and the line (commas overwritten by `strtok`)
still in `in_str_buff`. -/
theorem unsupported_input_type_keeps_line :
    (run (env_const true) (fresh TfLiteType.kTfLiteFloat32 TfLiteType.kTfLiteInt8)
        (lit "1,2,3,4,5,6,7" ++ [13])).in_buff_idx = 14 ∧
    (run (env_const true) (fresh TfLiteType.kTfLiteFloat32 TfLiteType.kTfLiteInt8)
        (lit "1,2,3,4,5,6,7" ++ [13])).in_str_buff
      = [49, 0, 50, 0, 51, 0, 52, 0, 53, 0, 54, 0, 55, 13] ++ List.replicate 50 0 ∧
    (run (env_const true) (fresh TfLiteType.kTfLiteFloat32 TfLiteType.kTfLiteInt8)
        (lit "1,2,3,4,5,6,7" ++ [13])).in_str_buff ≠ List.replicate INPUT_BUFFER_SIZE 0 ∧
    (run (env_const true) (fresh TfLiteType.kTfLiteFloat32 TfLiteType.kTfLiteInt8)
        (lit "1,2,3,4,5,6,7" ++ [13])).serial.getLast? = some Out.newline ∧
    Out.text (lit "Unsupported input type!") ∈
      (run (env_const true) (fresh TfLiteType.kTfLiteFloat32 TfLiteType.kTfLiteInt8)
        (lit "1,2,3,4,5,6,7" ++ [13])).serial := by
  refine ⟨by decide!, by decide!, by decide!, by decide!, by decide!⟩

/-! ## C7: after a failure of Invoke -/

/-- C7: when `Invoke` reports a failure on a line of 7 tokens, the pass ends
with `"Error running inference."` printed, `in_str_buff` all zero and
`in_buff_idx` 0; a line of 7 tokens received next is parsed to the same
integers and quantized to the same input slots 0 to 6 as it is when received
right after `setup()`, and `Invoke` is called exactly once for it. -/
theorem ready_after_invoke_failure (env : Env σ) (s : State σ) (line1 line2 : List Nat)
    (tin tout : TfLiteTensor) (it : σ)
    (hi : s.in_buff_idx = 0) (hb : s.in_str_buff.length = INPUT_BUFFER_SIZE)
    (ha : s.input_array.length = INT_ARRAY_SIZE)
    (ht : s.input.type = TfLiteType.kTfLiteInt8) (hd : 7 ≤ s.input.data.length)
    (h1 : 13 ∉ line1) (hl1 : line1.length ≤ 62)
    (hv1 : (tokens (line1 ++ [13, 0])).length = 7)
    (hfail : (env.Invoke s.interpreter
        (quantize_input (run env s (line1 ++ [13])).input_array s.input.data)
        s.output.data).1 = false)
    (h2 : 13 ∉ line2) (hl2 : line2.length ≤ 62)
    (hv2 : (tokens (line2 ++ [13, 0])).length = 7)
    (htin : tin.type = TfLiteType.kTfLiteInt8) (hdin : 7 ≤ tin.data.length) :
    (∃ pre, (run env s (line1 ++ [13])).serial
      = pre ++ [Out.text (lit "Error running inference."), Out.newline]) ∧
    (run env s (line1 ++ [13])).in_str_buff = List.replicate INPUT_BUFFER_SIZE 0 ∧
    (run env s (line1 ++ [13])).in_buff_idx = 0 ∧
    (run env (run env s (line1 ++ [13])) (line2 ++ [13])).input_array.take 7
      = (run env (setup tin tout it) (line2 ++ [13])).input_array.take 7 ∧
    (run env (run env s (line1 ++ [13])) (line2 ++ [13])).calls
      = (run env s (line1 ++ [13])).calls ++
        [quantize_input (run env (run env s (line1 ++ [13])) (line2 ++ [13])).input_array
          (run env s (line1 ++ [13])).input.data] ∧
    (run env (setup tin tout it) (line2 ++ [13])).calls
      = [quantize_input (run env (setup tin tout it) (line2 ++ [13])).input_array tin.data] ∧
    (quantize_input (run env (run env s (line1 ++ [13])) (line2 ++ [13])).input_array
        (run env s (line1 ++ [13])).input.data).take 7
      = (quantize_input (run env (setup tin tout it) (line2 ++ [13])).input_array
          tin.data).take 7 := by
  obtain ⟨-, -, a3, -, -, a6, a7, a8, a9, a10, -⟩ :=
    run_valid_line env s line1 hi hb ha ht hd h1 hl1 hv1
  have hb1 : (run env s (line1 ++ [13])).in_str_buff.length = INPUT_BUFFER_SIZE := by
    rw [a6]; simp
  obtain ⟨-, b2, -, b4, b5, -⟩ :=
    run_valid_line env (run env s (line1 ++ [13])) line2 a7 hb1 a3 a8 (by rw [a9]; exact hd)
      h2 hl2 hv2
  obtain ⟨f1, f2, f3, f4, f5⟩ := setup_facts tin tout it
  obtain ⟨-, c2, -, c4, c5, -⟩ :=
    run_valid_line env (setup tin tout it) line2 f1 f2 f3 (by rw [f4]; exact htin)
      (by rw [f4]; exact hdin) h2 hl2 hv2
  rw [f4, f5] at c4
  rw [f4] at c5
  refine ⟨a10 hfail, a6, a7, ?_, b4, ?_, ?_⟩
  · rw [b2, c2]
  · simpa using c4
  · rw [b5, c5]

/-- C7 with an interpreter that fails at its first call: `"3,7,12,5,10,1,4"`
fails, then `"1,2,3,4,5,6,7"` is parsed and quantized and `Invoke` called for
it. -/
theorem ready_after_invoke_failure_witness :
    (run env_fail_first (run env_fail_first
        (setup { type := TfLiteType.kTfLiteInt8, data := List.replicate 7 0 }
          { type := TfLiteType.kTfLiteInt8, data := [0] } 0)
        (lit "3,7,12,5,10,1,4" ++ [13])) (lit "1,2,3,4,5,6,7" ++ [13])).calls
      = [[23, 49, 81, 36, 68, 10, 29], [10, 16, 23, 29, 36, 42, 49]] ∧
    (run env_fail_first (run env_fail_first
        (setup { type := TfLiteType.kTfLiteInt8, data := List.replicate 7 0 }
          { type := TfLiteType.kTfLiteInt8, data := [0] } 0)
        (lit "3,7,12,5,10,1,4" ++ [13])) (lit "1,2,3,4,5,6,7" ++ [13])).input_array.take 7
      = (run env_fail_first
          (setup { type := TfLiteType.kTfLiteInt8, data := List.replicate 7 0 }
            { type := TfLiteType.kTfLiteInt8, data := [0] } 5)
          (lit "1,2,3,4,5,6,7" ++ [13])).input_array.take 7 :=
  ⟨by decide!,
    (ready_after_invoke_failure env_fail_first
      (setup { type := TfLiteType.kTfLiteInt8, data := List.replicate 7 0 }
        { type := TfLiteType.kTfLiteInt8, data := [0] } 0)
      (lit "3,7,12,5,10,1,4") (lit "1,2,3,4,5,6,7")
      { type := TfLiteType.kTfLiteInt8, data := List.replicate 7 0 }
      { type := TfLiteType.kTfLiteInt8, data := [0] } 5
      rfl (by decide) (by decide) rfl (by decide) (by decide) (by decide) (by decide)
      (by decide!) (by decide) (by decide) (by decide) rfl (by decide)).2.2.2.1⟩

/-! ## C8: tensors that are not int8 -/

/-- C8 fails on the code when only the output tensor is not int8: for the line
`"1,2,3,4,5,6,7"` `Invoke` is called, no unsupported-type message is printed,
and `"Model Prediction: "` is printed followed by the value of `prediction`,
which was never assigned. -/
theorem unsupported_output_type_still_invokes :
    (run (env_const true) (fresh TfLiteType.kTfLiteInt8 TfLiteType.kTfLiteFloat32)
        (lit "1,2,3,4,5,6,7" ++ [13])).calls.length = 1 ∧
    (run (env_const true) (fresh TfLiteType.kTfLiteInt8 TfLiteType.kTfLiteFloat32)
        (lit "1,2,3,4,5,6,7" ++ [13])).serial.drop 26
      = [ Out.text (lit "Model Prediction: "), Out.num none, Out.newline,
          Out.text (lit "Printing time = "), Out.num (some 0),
          Out.text (lit " " ++ [194, 181] ++ lit "s. Inference time = "), Out.num (some 0),
          Out.text (lit " " ++ [194, 181] ++ lit "s."), Out.newline ] ∧
    Out.text (lit "Unsupported input type!") ∉
      (run (env_const true) (fresh TfLiteType.kTfLiteInt8 TfLiteType.kTfLiteFloat32)
        (lit "1,2,3,4,5,6,7" ++ [13])).serial := by
  refine ⟨by decide!, by decide!, by decide!⟩

/-! ## C9: a line that fills the buffer -/

/-- C9: from an empty line buffer, 64 received characters none of which is the
terminator leave the state as it was except that `in_str_buff` is all zero,
`in_buff_idx` is 0 and the 64 characters have been echoed: no message, no
parse, no call of `Invoke`.  The reset is made by the pass that receives the
64th character: after 63 of them the cursor is 63. -/
theorem overflow_resets_silently (env : Env σ) (s : State σ) (cs : List Nat)
    (hlen : cs.length = INPUT_BUFFER_SIZE) (h13 : 13 ∉ cs) (hi : s.in_buff_idx = 0)
    (hb : s.in_str_buff.length = INPUT_BUFFER_SIZE) :
    run env s cs =
      { s with
        in_str_buff := List.replicate INPUT_BUFFER_SIZE 0
        in_buff_idx := 0
        serial := s.serial ++ cs.map Out.char
        stores := s.stores ++ List.range INPUT_BUFFER_SIZE } ∧
    (run env s (cs.take 63)).in_buff_idx = 63 ∧
    (run env s (cs.take 63)).in_str_buff.take 63 = cs.take 63  := by
  simp only [INPUT_BUFFER_SIZE] at hlen
  have hne : cs ≠ [] := by intro h; simp [h] at hlen
  have hsplit : cs = cs.take 63 ++ [cs.getLast hne] := by
    have h1 : cs.take 63 = cs.dropLast := by
      rw [List.dropLast_eq_take]; congr 1; omega
    rw [h1, List.dropLast_append_getLast]
  have h13t : 13 ∉ cs.take 63 := fun h => h13 (List.mem_of_mem_take h)
  have hc : cs.getLast hne ≠ 13 := fun h => h13 (h ▸ List.getLast_mem hne)
  have hl63 : (cs.take 63).length = 63 := by simp; omega
  have hrun := run_chars env (cs.take 63) s h13t (by simp only [INPUT_BUFFER_SIZE]; omega)
  refine ⟨?_, ?_, ?_⟩
  · conv_lhs => rw [hsplit]
    rw [run_append, hrun]
    have hone : ∀ t : State σ, run env t [cs.getLast hne] = loop env t (some (cs.getLast hne)) :=
      fun t => by simp [run]
    rw [hone, loop_char_full env _ _ hc (by simp only [INPUT_BUFFER_SIZE]; omega)]
    have e1 : List.map Out.char (cs.take 63) ++ [Out.char (cs.getLast hne)]
        = List.map Out.char cs := by
      conv_rhs => rw [hsplit]
      simp
    have e2 : List.range' s.in_buff_idx (cs.take 63).length ++ [s.in_buff_idx + (cs.take 63).length]
        = List.range INPUT_BUFFER_SIZE := by
      rw [hi, hl63]; decide
    simp only [List.append_assoc, e1, e2]
  · rw [hrun]; simp; omega
  · rw [hrun]
    simp only [hi]
    rw [write_at_eq _ _ _ (by rw [hl63, hb]; decide)]
    simp [hl63]

/-- C9 on 64 letters `a` received after `setup()`. -/
theorem overflow_resets_silently_witness :
    (run (env_const true) (fresh TfLiteType.kTfLiteInt8 TfLiteType.kTfLiteInt8)
        (List.replicate 64 97)).in_buff_idx = 0 ∧
    run (env_const true) (fresh TfLiteType.kTfLiteInt8 TfLiteType.kTfLiteInt8)
        (List.replicate 64 97) =
      { fresh TfLiteType.kTfLiteInt8 TfLiteType.kTfLiteInt8 with
        in_str_buff := List.replicate INPUT_BUFFER_SIZE 0
        in_buff_idx := 0
        serial := (fresh TfLiteType.kTfLiteInt8 TfLiteType.kTfLiteInt8).serial
          ++ (List.replicate 64 97).map Out.char
        stores := (fresh TfLiteType.kTfLiteInt8 TfLiteType.kTfLiteInt8).stores
          ++ List.range INPUT_BUFFER_SIZE } :=
  ⟨by decide!,
    (overflow_resets_silently (env_const true)
      (fresh TfLiteType.kTfLiteInt8 TfLiteType.kTfLiteInt8) (List.replicate 64 97)
      (by decide) (by decide) rfl (by decide)).1⟩

/-! ## C10: the input slots depend on the parsed integers only -/

/-- C10 (as amended): for a line of 7 tokens the data `Invoke` receives in
the input slots 0 to 6 are the int8 conversions of
`round(input_array[i] / input_scale + input_zero_point)`, which is that value
itself whenever it lies in `[-128, 127]`: a function of the 7 parsed integers
only.  Two runs on the same line, from states that differ in the contents of
the tensors, of the line buffer and of `input_array`, give the same slots and,
with an interpreter whose status and output depend on these slots only, the
same output tensor data and the same prediction.  For `"3,7,12,5,10,1,4"` the
slots are `[23,49,81,36,68,10,29]`. -/
theorem input_slots_function_of_parsed (env : Env σ) (s t : State σ) (line : List Nat)
    (hi : s.in_buff_idx = 0) (hb : s.in_str_buff.length = INPUT_BUFFER_SIZE)
    (ha : s.input_array.length = INT_ARRAY_SIZE)
    (ht : s.input.type = TfLiteType.kTfLiteInt8) (hd : 7 ≤ s.input.data.length)
    (hi' : t.in_buff_idx = 0) (hb' : t.in_str_buff.length = INPUT_BUFFER_SIZE)
    (ha' : t.input_array.length = INT_ARRAY_SIZE)
    (ht' : t.input.type = TfLiteType.kTfLiteInt8) (hd' : 7 ≤ t.input.data.length)
    (h13 : 13 ∉ line) (hl : line.length ≤ 62)
    (hv : (tokens (line ++ [13, 0])).length = 7) :
    (run env s (line ++ [13])).calls
      = s.calls ++ [quantize_input (run env s (line ++ [13])).input_array s.input.data] ∧
    (quantize_input (run env s (line ++ [13])).input_array s.input.data).take 7
      = ((run env s (line ++ [13])).input_array.take 7).map
          (fun x => int8_cast (quantize input_scale input_zero_point x)) ∧
    (∀ x : ℤ, -128 ≤ quantize input_scale input_zero_point x →
      quantize input_scale input_zero_point x ≤ 127 →
      int8_cast (quantize input_scale input_zero_point x)
        = quantize input_scale input_zero_point x) ∧
    (run env t (line ++ [13])).calls
      = t.calls ++ [quantize_input (run env t (line ++ [13])).input_array t.input.data] ∧
    (quantize_input (run env t (line ++ [13])).input_array t.input.data).take 7
      = (quantize_input (run env s (line ++ [13])).input_array s.input.data).take 7 ∧
    ((∀ (st st' : σ) (i i' o o' : List Int), i.take 7 = i'.take 7 →
        (env.Invoke st i o).1 = (env.Invoke st' i' o').1 ∧
        (env.Invoke st i o).2.2.2 = (env.Invoke st' i' o').2.2.2) →
      s.output.type = t.output.type →
      (run env s (line ++ [13])).output.data = (run env t (line ++ [13])).output.data ∧
      prediction (run env s (line ++ [13])).output
        = prediction (run env t (line ++ [13])).output) ∧
    (run (env_const true) (fresh TfLiteType.kTfLiteInt8 TfLiteType.kTfLiteInt8)
      (lit "3,7,12,5,10,1,4" ++ [13])).calls = [[23, 49, 81, 36, 68, 10, 29]] := by
  obtain ⟨-, a2, -, a4, a5, -, -, -, -, -, a11, a12, -⟩ :=
    run_valid_line env s line hi hb ha ht hd h13 hl hv
  obtain ⟨-, b2, -, b4, b5, -, -, -, -, -, b11, b12, -⟩ :=
    run_valid_line env t line hi' hb' ha' ht' hd' h13 hl hv
  refine ⟨a4, ?_, fun x h1 h2 => int8_cast_id _ h1 h2, b4, ?_, ?_, by decide!⟩
  · rw [a5, a2]
  · rw [a5, b5]
  · intro hdet hty
    have hslots : (quantize_input (run env s (line ++ [13])).input_array s.input.data).take 7
        = (quantize_input (run env t (line ++ [13])).input_array t.input.data).take 7 := by
      rw [a5, b5]
    have hout := (hdet s.interpreter t.interpreter _ _ s.output.data t.output.data hslots).2
    have hdata : (run env s (line ++ [13])).output.data
        = (run env t (line ++ [13])).output.data := by
      rw [a12, b12]; exact hout
    refine ⟨hdata, ?_⟩
    unfold prediction
    rw [a11, b11, hdata, hty]

/-- C10 on the line `"3,7,12,5,10,1,4"`, received once after `setup()` and
once in a state whose tensors, line buffer and `input_array` hold other
values. -/
theorem input_slots_function_of_parsed_witness :
    (quantize_input
        (run (env_const true)
          { fresh TfLiteType.kTfLiteInt8 TfLiteType.kTfLiteInt8 with
            in_str_buff := List.replicate 64 55
            input_array := List.replicate 8 99
            input := { type := TfLiteType.kTfLiteInt8, data := List.replicate 9 (-5) } }
          (lit "3,7,12,5,10,1,4" ++ [13])).input_array
        (List.replicate 9 (-5))).take 7
      = (quantize_input
          (run (env_const true) (fresh TfLiteType.kTfLiteInt8 TfLiteType.kTfLiteInt8)
            (lit "3,7,12,5,10,1,4" ++ [13])).input_array
          (List.replicate 7 0)).take 7 :=
  (input_slots_function_of_parsed (env_const true)
    (fresh TfLiteType.kTfLiteInt8 TfLiteType.kTfLiteInt8)
    { fresh TfLiteType.kTfLiteInt8 TfLiteType.kTfLiteInt8 with
      in_str_buff := List.replicate 64 55
      input_array := List.replicate 8 99
      input := { type := TfLiteType.kTfLiteInt8, data := List.replicate 9 (-5) } }
    (lit "3,7,12,5,10,1,4")
    rfl (by decide) (by decide) rfl (by decide) rfl (by decide) (by decide) rfl (by decide)
    (by decide) (by decide) (by decide)).2.2.2.2.1

/-- The counter-example to C10 as first stated: in the line
`"100,0,0,0,0,0,0"` the first integer is quantized to 657, which no `int8_t`
holds; slot 0 receives its conversion to `int8_t`, a value of `[-128, 127]`. -/
theorem quantized_slot_out_of_int8_range :
    (run (env_const true) (fresh TfLiteType.kTfLiteInt8 TfLiteType.kTfLiteInt8)
      (lit "100,0,0,0,0,0,0" ++ [13])).input_array = [100, 0, 0, 0, 0, 0, 0, 0] ∧
    quantize input_scale input_zero_point 100 = 657 ∧
    (run (env_const true) (fresh TfLiteType.kTfLiteInt8 TfLiteType.kTfLiteInt8)
      (lit "100,0,0,0,0,0,0" ++ [13])).calls = [[-111, 3, 3, 3, 3, 3, 3]] ∧
    ((run (env_const true) (fresh TfLiteType.kTfLiteInt8 TfLiteType.kTfLiteInt8)
      (lit "100,0,0,0,0,0,0" ++ [13])).calls.map (fun d => d.getD 0 0))
      ≠ [quantize input_scale input_zero_point 100] := by
  refine ⟨by decide!, by decide!, by decide!, by decide!⟩

/-! ## C11: the text handed to string_to_array -/

/-- C11 (as amended): for a line without NUL of at most 62 characters, received
from an empty line buffer, the text handed to `string_to_array` (the one the
pass prints after `"About to process line: "`) is the line followed by the
terminator.  The count and the values are those of the tokens of that text:
when the line ends with a character other than a comma they are the count and
the values of the tokens of the line, the terminator joining the last token
without changing its value; when the line is empty or ends with a comma, the
terminator is one more token, of value 0.  So the line `"1,2,3,4,5,6,"` gives
7 tokens, `[1,2,3,4,5,6,0]`, and is sent to `Invoke`. -/
theorem line_text_keeps_terminator (env : Env σ) (s : State σ) (cs : List Nat)
    (hi : s.in_buff_idx = 0) (hb : s.in_str_buff.length = INPUT_BUFFER_SIZE)
    (ha : s.input_array.length = INT_ARRAY_SIZE)
    (h13 : 13 ∉ cs) (h0 : 0 ∉ cs) (hl : cs.length ≤ 62) :
    (∃ post, (run env s (cs ++ [13])).serial
      = s.serial ++ cs.map Out.char ++
          [ Out.char 13, Out.text (lit "About to process line: "), Out.text (cs ++ [13]),
            Out.newline ] ++ post) ∧
    (run env s (cs ++ [13])).array_length = min 8 (tokens (cs ++ [13, 0])).length ∧
    (run env s (cs ++ [13])).input_array.take (run env s (cs ++ [13])).array_length
      = ((tokens (cs ++ [13, 0])).take 8).map atoi ∧
    ((cs ≠ [] ∧ cs.getLast? ≠ some 44) →
      (tokens (cs ++ [13, 0])).length = (tokens (cs ++ [0])).length ∧
      (tokens (cs ++ [13, 0])).map atoi = (tokens (cs ++ [0])).map atoi) ∧
    ((cs = [] ∨ cs.getLast? = some 44) →
      tokens (cs ++ [13, 0]) = tokens (cs ++ [0]) ++ [[13]] ∧ atoi [13] = 0) ∧
    ((tokens (lit "1,2,3,4,5,6," ++ [0])).length = 6 ∧
      (run (env_const true) (fresh TfLiteType.kTfLiteInt8 TfLiteType.kTfLiteInt8)
        (lit "1,2,3,4,5,6," ++ [13])).array_length = 7 ∧
      (run (env_const true) (fresh TfLiteType.kTfLiteInt8 TfLiteType.kTfLiteInt8)
        (lit "1,2,3,4,5,6," ++ [13])).input_array.take 7 = [1, 2, 3, 4, 5, 6, 0] ∧
      (run (env_const true) (fresh TfLiteType.kTfLiteInt8 TfLiteType.kTfLiteInt8)
        (lit "1,2,3,4,5,6," ++ [13])).calls.length = 1) := by
  have e1 : cs ++ 13 :: 0 :: s.in_str_buff.drop (cs.length + 2)
      = (cs ++ [13]) ++ 0 :: s.in_str_buff.drop (cs.length + 2) := by simp
  have e2 : cs ++ [13, 0] = (cs ++ [13]) ++ [0] := by simp
  have htok : tokens (cs ++ 13 :: 0 :: s.in_str_buff.drop (cs.length + 2))
      = tokens (cs ++ [13, 0]) := by
    rw [e1, e2, tokens_nul_rest]
  have hcs : c_str (cs ++ 13 :: 0 :: s.in_str_buff.drop (cs.length + 2)) = cs ++ [13] := by
    rw [e1, c_str_append_nul, c_str_no_nul]
    intro h
    rcases List.mem_append.1 h with h | h
    · exact h0 h
    · simp at h
  obtain ⟨p1, p2, -⟩ := string_to_array_spec
    (cs ++ 13 :: 0 :: s.in_str_buff.drop (cs.length + 2)) s.input_array ha
  rw [htok] at p1 p2
  obtain ⟨q1, q2⟩ := process_line_parse env
    { s with
      in_str_buff := cs ++ 13 :: 0 :: s.in_str_buff.drop (cs.length + 2)
      in_buff_idx := cs.length + 1
      serial := s.serial ++ cs.map Out.char ++ [Out.char 13]
      stores := s.stores ++ List.range (cs.length + 2) }
  obtain ⟨t1, t2⟩ := tokens_with_cr cs h0
  refine ⟨?_, ?_, ?_, ?_, ?_, by decide, by decide!, by decide!, by decide!⟩
  · obtain ⟨post, hp⟩ := process_line_serial_prefix env
      { s with
        in_str_buff := cs ++ 13 :: 0 :: s.in_str_buff.drop (cs.length + 2)
        in_buff_idx := cs.length + 1
        serial := s.serial ++ cs.map Out.char ++ [Out.char 13]
        stores := s.stores ++ List.range (cs.length + 2) }
    refine ⟨post, ?_⟩
    rw [run_line env s cs h13 hi hb hl, hp]
    simp only [hcs]
    simp
  · rw [run_line env s cs h13 hi hb hl, q1]
    exact p1
  · rw [run_line env s cs h13 hi hb hl, q1, q2]
    simp only []
    rw [p1, p2, List.take_append_of_le_length (by simp)]
    apply List.take_of_length_le
    simp
  · rintro ⟨hne, hlast⟩
    have hopen : (scan cs []).2 ≠ [] := fun h =>
      ((scan_open_nil_iff cs).1 h).elim hne hlast
    rw [t1, t2, if_neg hopen]
    constructor
    · simp
    · simp [atoi_append_cr]
  · intro h
    have hopen : (scan cs []).2 = [] := (scan_open_nil_iff cs).2 h
    rw [t1, t2, hopen]
    exact ⟨by simp, by decide⟩

/-- C11 on the line `"3,7,12,5,10,1,4"`: the text handed on is
`"3,7,12,5,10,1,4\r"`, and its 7 tokens have the values of the 7 tokens of the
line. -/
theorem line_text_keeps_terminator_witness :
    (∃ post, (run (env_const true) (fresh TfLiteType.kTfLiteInt8 TfLiteType.kTfLiteInt8)
        (lit "3,7,12,5,10,1,4" ++ [13])).serial
      = (fresh TfLiteType.kTfLiteInt8 TfLiteType.kTfLiteInt8).serial
          ++ (lit "3,7,12,5,10,1,4").map Out.char ++
          [ Out.char 13, Out.text (lit "About to process line: "),
            Out.text (lit "3,7,12,5,10,1,4" ++ [13]), Out.newline ] ++ post) ∧
    (tokens (lit "3,7,12,5,10,1,4" ++ [13, 0])).map atoi
      = (tokens (lit "3,7,12,5,10,1,4" ++ [0])).map atoi :=
  ⟨(line_text_keeps_terminator (env_const true)
      (fresh TfLiteType.kTfLiteInt8 TfLiteType.kTfLiteInt8) (lit "3,7,12,5,10,1,4")
      rfl (by decide) (by decide) (by decide) (by decide) (by decide)).1,
    ((line_text_keeps_terminator (env_const true)
      (fresh TfLiteType.kTfLiteInt8 TfLiteType.kTfLiteInt8) (lit "3,7,12,5,10,1,4")
      rfl (by decide) (by decide) (by decide) (by decide) (by decide)).2.2.2.1
      ⟨by decide, by decide⟩).2⟩

/-- The counter-example to C11 as first stated: after the content
`"1,2,3,4,5,6,"`, which has 6 tokens, the text printed and parsed is
`"1,2,3,4,5,6,\r"`; it contains the carriage return and gives 7 tokens. -/
theorem terminator_counts_as_token :
    (tokens (lit "1,2,3,4,5,6," ++ [0])).length = 6 ∧
    Out.text (lit "1,2,3,4,5,6,\r") ∈
      (run (env_const true) (fresh TfLiteType.kTfLiteInt8 TfLiteType.kTfLiteInt8)
        (lit "1,2,3,4,5,6," ++ [13])).serial ∧
    13 ∈ lit "1,2,3,4,5,6,\r" ∧
    (run (env_const true) (fresh TfLiteType.kTfLiteInt8 TfLiteType.kTfLiteInt8)
      (lit "1,2,3,4,5,6," ++ [13])).array_length = 7 ∧
    (run (env_const true) (fresh TfLiteType.kTfLiteInt8 TfLiteType.kTfLiteInt8)
      (lit "1,2,3,4,5,6," ++ [13])).input_array = [1, 2, 3, 4, 5, 6, 0, 0] ∧
    (run (env_const true) (fresh TfLiteType.kTfLiteInt8 TfLiteType.kTfLiteInt8)
      (lit "1,2,3,4,5,6," ++ [13])).calls = [[10, 16, 23, 29, 36, 42, 3]] := by
  refine ⟨by decide, by decide!, by decide, by decide!, by decide!, by decide!⟩

/-! ## C12: the reported prediction -/

/-- C12: for a request of 7 tokens on which `Invoke` succeeds and leaves the
int8 value `q` in the first cell of the int8 output tensor, the pass prints
`"Model Prediction: "` followed by `round((q - output_zero_point) * 0.5166817)`;
the difference `q - output_zero_point` is the integer difference, between -65
and 190, and `round` gives an integer at most one half away from the product.
The binary32 computation of the code gives that value for every int8 `q`. -/
theorem reported_prediction (env : Env σ) (s : State σ) (line : List Nat)
    (hi : s.in_buff_idx = 0) (hb : s.in_str_buff.length = INPUT_BUFFER_SIZE)
    (ha : s.input_array.length = INT_ARRAY_SIZE)
    (ht : s.input.type = TfLiteType.kTfLiteInt8) (hd : 7 ≤ s.input.data.length)
    (h13 : 13 ∉ line) (hl : line.length ≤ 62)
    (hv : (tokens (line ++ [13, 0])).length = 7)
    (hto : s.output.type = TfLiteType.kTfLiteInt8)
    (hok : (env.Invoke s.interpreter
        (quantize_input (run env s (line ++ [13])).input_array s.input.data)
        s.output.data).1 = true)
    (hq1 : -128 ≤ (run env s (line ++ [13])).output.data.getD 0 0)
    (hq2 : (run env s (line ++ [13])).output.data.getD 0 0 ≤ 127) :
    (∃ pre post, (run env s (line ++ [13])).serial
      = pre ++ [Out.text (lit "Model Prediction: "),
          Out.num (some (prediction_value ((run env s (line ++ [13])).output.data.getD 0 0))),
          Out.newline] ++ post) ∧
    -65 ≤ (run env s (line ++ [13])).output.data.getD 0 0 - output_zero_point ∧
    (run env s (line ++ [13])).output.data.getD 0 0 - output_zero_point ≤ 190 ∧
    |((prediction_value ((run env s (line ++ [13])).output.data.getD 0 0) : ℤ) : ℚ)
        - (((run env s (line ++ [13])).output.data.getD 0 0 - output_zero_point : ℤ) : ℚ)
          * (5166817 / 10000000)| ≤ 1 / 2 ∧
    (∀ q : ℤ, -128 ≤ q → q ≤ 127 →
      dequantize output_scale output_zero_point q = prediction_value q) := by
  obtain ⟨-, -, -, -, -, -, -, -, -, -, a11, -, a13⟩ :=
    run_valid_line env s line hi hb ha ht hd h13 hl hv
  obtain ⟨pre, post, hser⟩ := a13 hok
  have hp : prediction (run env s (line ++ [13])).output
      = some (prediction_value ((run env s (line ++ [13])).output.data.getD 0 0)) := by
    unfold prediction
    rw [a11, hto, if_pos rfl, dequantize_output_eq _ hq1 hq2]
  rw [hp] at hser
  refine ⟨⟨pre, post, hser⟩, ?_, ?_, round_nearest _, dequantize_output_eq⟩
  · unfold output_zero_point; omega
  · unfold output_zero_point; omega

/-- C12 on the line `"3,7,12,5,10,1,4"` with an interpreter that leaves -40 in
the output cell: the prediction printed is 12. -/
theorem reported_prediction_witness :
    prediction_value (-40) = 12 ∧
    (run (env_output (-40)) (fresh TfLiteType.kTfLiteInt8 TfLiteType.kTfLiteInt8)
      (lit "3,7,12,5,10,1,4" ++ [13])).output.data.getD 0 0 = -40 ∧
    ∃ pre post, (run (env_output (-40)) (fresh TfLiteType.kTfLiteInt8 TfLiteType.kTfLiteInt8)
        (lit "3,7,12,5,10,1,4" ++ [13])).serial
      = pre ++ [Out.text (lit "Model Prediction: "),
          Out.num (some (prediction_value
            ((run (env_output (-40)) (fresh TfLiteType.kTfLiteInt8 TfLiteType.kTfLiteInt8)
              (lit "3,7,12,5,10,1,4" ++ [13])).output.data.getD 0 0))),
          Out.newline] ++ post :=
  ⟨by decide!, by decide!,
    (reported_prediction (env_output (-40))
      (fresh TfLiteType.kTfLiteInt8 TfLiteType.kTfLiteInt8) (lit "3,7,12,5,10,1,4")
      rfl (by decide) (by decide) rfl (by decide) (by decide) (by decide) (by decide) rfl
      (by decide!) (by decide!) (by decide!)).1⟩

/-! ## C13: a line of 64 characters or more -/

/-- C14: a token that, after optional white space and an optional sign, does
not start with a digit is converted to 0 by `atoi`; the count `string_to_array`
returns depends on the number of tokens only; and a line of 7 malformed tokens
is accepted: `array_length` is 7, `input_array[0..6]` is all zero and `Invoke`
is called once, on the quantized zeros. -/
theorem malformed_tokens_are_zero (env : Env σ) (s : State σ) (line : List Nat)
    (hi : s.in_buff_idx = 0) (hb : s.in_str_buff.length = INPUT_BUFFER_SIZE)
    (ha : s.input_array.length = INT_ARRAY_SIZE)
    (ht : s.input.type = TfLiteType.kTfLiteInt8) (hd : 7 ≤ s.input.data.length)
    (h13 : 13 ∉ line) (hl : line.length ≤ 62)
    (hv : (tokens (line ++ [13, 0])).length = 7)
    (hm : ∀ t ∈ tokens (line ++ [13, 0]), malformed t) :
    (∀ t : List Nat, malformed t → atoi t = 0) ∧
    (∀ (mem : List Nat) (a : List Int), a.length = INT_ARRAY_SIZE →
      (string_to_array mem a).num_integers = min INT_ARRAY_SIZE (tokens mem).length) ∧
    (run env s (line ++ [13])).array_length = 7 ∧
    (run env s (line ++ [13])).input_array.take 7 = [0, 0, 0, 0, 0, 0, 0] ∧
    (run env s (line ++ [13])).calls
      = s.calls ++ [quantize_input (run env s (line ++ [13])).input_array s.input.data] ∧
    (quantize_input (run env s (line ++ [13])).input_array s.input.data).take 7
      = [3, 3, 3, 3, 3, 3, 3] := by
  obtain ⟨a1, a2, -, a4, a5, -⟩ := run_valid_line env s line hi hb ha ht hd h13 hl hv
  have hz : (tokens (line ++ [13, 0])).map atoi = [0, 0, 0, 0, 0, 0, 0] := by
    have hall : ∀ v ∈ (tokens (line ++ [13, 0])).map atoi, v = 0 := by
      intro v hv'
      obtain ⟨t, ht', rfl⟩ := List.mem_map.1 hv'
      exact atoi_malformed t (hm t ht')
    have hlen : ((tokens (line ++ [13, 0])).map atoi).length = 7 := by simp [hv]
    rw [List.eq_replicate_of_mem hall, hlen]
    rfl
  refine ⟨atoi_malformed, fun mem a h => (string_to_array_spec mem a h).1, a1, ?_, a4, ?_⟩
  · rw [a2, hz]
  · rw [a5, hz]
    simp [quantize_zero]

/-- C14 on the line `"a,b,c,d,e,f,g"`. -/
theorem malformed_tokens_are_zero_witness :
    (run (env_const true) (fresh TfLiteType.kTfLiteInt8 TfLiteType.kTfLiteInt8)
      (lit "a,b,c,d,e,f,g" ++ [13])).array_length = 7 ∧
    (run (env_const true) (fresh TfLiteType.kTfLiteInt8 TfLiteType.kTfLiteInt8)
      (lit "a,b,c,d,e,f,g" ++ [13])).input_array.take 7 = [0, 0, 0, 0, 0, 0, 0] ∧
    (run (env_const true) (fresh TfLiteType.kTfLiteInt8 TfLiteType.kTfLiteInt8)
      (lit "a,b,c,d,e,f,g" ++ [13])).calls = [[3, 3, 3, 3, 3, 3, 3]] :=
  ⟨(malformed_tokens_are_zero (env_const true)
      (fresh TfLiteType.kTfLiteInt8 TfLiteType.kTfLiteInt8) (lit "a,b,c,d,e,f,g")
      rfl (by decide) (by decide) rfl (by decide) (by decide) (by decide) (by decide)
      (by
        intro t ht
        have h : tokens (lit "a,b,c,d,e,f,g" ++ [13, 0])
            = [[97], [98], [99], [100], [101], [102], [103, 13]] := by decide
        rw [h] at ht
        simp at ht
        rcases ht with rfl | rfl | rfl | rfl | rfl | rfl | rfl <;>
          (intro c hc; simp [after_sign, isspace] at hc; subst hc; decide))).2.2.1,
    by decide!, by decide!⟩

/-! ## C15: the order of the report -/

/-- C16 (as amended): `sum_array` returns the arithmetic sum of the first `n`
elements of the array, for every `n` within it, whenever no partial sum
leaves the range of `int`; it returns 0 for `n = 0`, and for the parsed vector
`[3,7,12,5,10,1,4]` it returns 42. -/
theorem sum_array_is_sum (arr : List Int) (n : Nat) (hn : n ≤ arr.length)
    (hr : ∀ k ≤ n, representable_int (arr.take k).sum) :
    sum_array arr n = (arr.take n).sum ∧
    sum_array arr 0 = 0 ∧
    sum_array [3, 7, 12, 5, 10, 1, 4] 7 = 42 :=
  ⟨sum_array_eq arr n hn hr, by simp [sum_array], by decide⟩

/-- C16 on the array `[3,7,12,5,10,1,4,0]` that `input_array` is after the line
`"3,7,12,5,10,1,4"`, with `n = 7`. -/
theorem sum_array_is_sum_witness :
    sum_array [3, 7, 12, 5, 10, 1, 4, 0] 7 = ([3, 7, 12, 5, 10, 1, 4, 0].take 7).sum ∧
    ([3, 7, 12, 5, 10, 1, 4, 0].take 7).sum = 42 :=
  ⟨(sum_array_is_sum [3, 7, 12, 5, 10, 1, 4, 0] 7 (by decide)
      (by intro k hk; interval_cases k <;> simp [representable_int])).1, by decide⟩

/-- The counter-example to C16 as first stated: for `[3,7,12,5,10,1,4]`
`sum_array` returns 42, not 39, and so does the pass of `loop` that reads the
line `"3,7,12,5,10,1,4"`. -/
theorem sum_array_of_example_is_42 :
    sum_array [3, 7, 12, 5, 10, 1, 4] 7 = 42 ∧
    sum_array [3, 7, 12, 5, 10, 1, 4] 7 ≠ 39 ∧
    (run (env_const true) (fresh TfLiteType.kTfLiteInt8 TfLiteType.kTfLiteInt8)
      (lit "3,7,12,5,10,1,4" ++ [13])).array_sum = 42 ∧
    Out.text (lit "Sums to 42\r\n") ∈
      (run (env_const true) (fresh TfLiteType.kTfLiteInt8 TfLiteType.kTfLiteInt8)
        (lit "3,7,12,5,10,1,4" ++ [13])).serial := by
  refine ⟨by decide, by decide, by decide!, by decide!⟩

/-! ## C17: empty tokens are skipped -/

/-- C17: `string_to_array` returns `min(8, number of tokens)`, where the tokens
of the string are the maximal non-empty runs of characters other than `','`,
that is the non-empty pieces of the split of the string at its commas; so
`"1,,2"` and `",1,2,"` both give 2 tokens with the values `[1,2]`, and a string
of commas only (or empty) gives 0. -/
theorem string_to_array_skips_empty_tokens (cs r : List Nat) (a : List Int)
    (h0 : 0 ∉ cs) (ha : a.length = INT_ARRAY_SIZE) :
    (string_to_array (cs ++ 0 :: r) a).num_integers
      = min 8 ((cs.splitOn 44).filter (fun t => !t.isEmpty)).length ∧
    (string_to_array (cs ++ 0 :: r) a).int_array.take
        (string_to_array (cs ++ 0 :: r) a).num_integers
      = (((cs.splitOn 44).filter (fun t => !t.isEmpty)).take 8).map atoi ∧
    ((∀ c ∈ cs, c = 44) → (string_to_array (cs ++ 0 :: r) a).num_integers = 0) ∧
    ((string_to_array (lit "1,,2" ++ [0]) (List.replicate 8 0)).num_integers = 2 ∧
      (string_to_array (lit "1,,2" ++ [0]) (List.replicate 8 0)).int_array.take 2 = [1, 2]) ∧
    ((string_to_array (lit ",1,2," ++ [0]) (List.replicate 8 0)).num_integers = 2 ∧
      (string_to_array (lit ",1,2," ++ [0]) (List.replicate 8 0)).int_array.take 2 = [1, 2]) := by
  obtain ⟨h1, h2, -⟩ := string_to_array_spec (cs ++ 0 :: r) a ha
  have ht := tokens_eq_splitOn cs r h0
  refine ⟨?_, ?_, ?_, ⟨by decide, by decide⟩, ⟨by decide, by decide⟩⟩
  · rw [h1, ht]
  · rw [h2, h1, ht]
    rw [List.take_append_of_le_length (by simp)]
    apply List.take_of_length_le
    simp
  · intro hall
    rw [h1, tokens_all_commas cs r hall]
    rfl

/-- C17 on the string `"1,,2"`. -/
theorem string_to_array_skips_empty_tokens_witness :
    (string_to_array (lit "1,,2" ++ 0 :: []) (List.replicate 8 0)).num_integers
      = min 8 (((lit "1,,2").splitOn 44).filter (fun t => !t.isEmpty)).length ∧
    ((lit "1,,2").splitOn 44).filter (fun t => !t.isEmpty) = [[49], [50]] :=
  ⟨(string_to_array_skips_empty_tokens (lit "1,,2") [] (List.replicate 8 0)
      (by decide) (by decide)).1, by decide⟩

/-! ## C18: the text of print_int_array and out_str_buff -/

/-- C18 fails on the code: the line of seven times `10000000` has 62
characters and passes the 7-token check, and the text `print_int_array`
formats for it has 84 characters, 85 bytes with its NUL, so that `sprintf`
stores into `out_str_buff` up to index 84, past `OUTPUT_BUFFER_SIZE`. -/
theorem print_int_array_overflows_out_str_buff :
    (csv_line (List.replicate 7 10000000)).length = 62 ∧
    (run (env_const true) (fresh TfLiteType.kTfLiteInt8 TfLiteType.kTfLiteInt8)
      (csv_line (List.replicate 7 10000000) ++ [13])).array_length = 7 ∧
    (run (env_const true) (fresh TfLiteType.kTfLiteInt8 TfLiteType.kTfLiteInt8)
      (csv_line (List.replicate 7 10000000) ++ [13])).input_array.take 7
      = List.replicate 7 10000000 ∧
    print_int_array_text (List.replicate 7 10000000) 7
      = lit ("Integers: [10000000, 10000000, 10000000, 10000000, 10000000, 10000000, "
          ++ "10000000, ]\r\n") ∧
    (print_int_array (fresh TfLiteType.kTfLiteInt8 TfLiteType.kTfLiteInt8)
      (List.replicate 7 10000000) 7).out_str_buff.length = 85 ∧
    OUTPUT_BUFFER_SIZE < 85 ∧
    Out.text (print_int_array_text (List.replicate 7 10000000) 7) ∈
      (run (env_const true) (fresh TfLiteType.kTfLiteInt8 TfLiteType.kTfLiteInt8)
        (csv_line (List.replicate 7 10000000) ++ [13])).serial := by
  refine ⟨by decide, by decide!, by decide!, by decide!, by decide!, by decide, by decide!⟩

/-! ## C19: the valid domain of the quantizer -/

/-- C19: the value `round(x / input_scale + input_zero_point)` that `loop`
converts to `int8_t` lies in `[-128, 127]` if and only if `-20 ≤ x ≤ 19`, and
the stored `int8_t` equals the rounded value for exactly those `x`; the ends of
the domain are quantized to -128 and 127, and the next integers to -134 and
134. -/
theorem quantize_domain_iff (x : ℤ) :
    ((-128 ≤ quantize input_scale input_zero_point x ∧
        quantize input_scale input_zero_point x ≤ 127) ↔ (-20 ≤ x ∧ x ≤ 19)) ∧
    (int8_cast (quantize input_scale input_zero_point x)
        = quantize input_scale input_zero_point x ↔ (-20 ≤ x ∧ x ≤ 19)) ∧
    quantize input_scale input_zero_point (-20) = -128 ∧
    quantize input_scale input_zero_point 19 = 127 ∧
    quantize input_scale input_zero_point (-21) = -134 ∧
    quantize input_scale input_zero_point 20 = 134 := by
  have hiff : (-128 ≤ quantize input_scale input_zero_point x ∧
      quantize input_scale input_zero_point x ≤ 127) ↔ (-20 ≤ x ∧ x ≤ 19) :=
    ⟨fun h => quantize_input_domain x h.1 h.2, fun h => quantize_input_in_range x h.1 h.2⟩
  refine ⟨hiff, ?_, by decide!, by decide!, by decide!, by decide!⟩
  constructor
  · intro h
    have hr := int8_cast_range (quantize input_scale input_zero_point x)
    rw [h] at hr
    exact hiff.1 hr
  · intro h
    have hr := hiff.2 h
    exact int8_cast_id _ hr.1 hr.2

end Hw3
